import Mathlib

/-! Minitube playlist model.

A shallow embedding of `src/playlistmodel.cpp` (class `PlaylistModel`).

* C++ `int` values are mathematical integers (`Int`); signed overflow is
  undefined behaviour in C++ and is not part of the model.
* A `Video*` is an address (`Nat`), the null pointer being `0`.
* Every outward effect of a member function (calls made through the video
  source, `delete`, Qt signals of the model) is appended, in program order,
  to the `log` field of the state.
* Dereferencing a null pointer and reading a `QList` out of range end the
  call with a `Fault`.
* Qt signal/slot connections, fonts and palettes are not modelled; the model
  has one column, so a `dataChanged` range is recorded by its rows only.
-/

namespace Minitube

/-- A `Video*` pointer value; `0` is the null pointer. -/
abbrev Video := Nat

/-- The object behind a non-null `VideoSource*`: its identity and what
`getSuggestions()` answers. -/
structure VideoSource where
  id : Nat
  suggestions : List String
  deriving DecidableEq, Repr

/-- Outward effects of the member functions, in the order they happen. -/
inductive Effect where
  | loadVideos (source : Nat) (max skip : Int)
  | abort (source : Nat)
  | deleteVideo (video : Video)
  | loadThumbnail (video : Video)
  | modelReset
  | rowsInserted (first last : Int)
  | rowsRemoved (first last : Int)
  | dataChanged (top bottom : Int)
  | activeRowChanged (row : Int)
  | haveSuggestions (suggestions : List String)
  | needSelectionFor (videos : List Video)
  deriving DecidableEq, Repr

/-- Ways a call can leave defined behaviour. -/
inductive Fault where
  | nullPointer
  | outOfRange
  deriving DecidableEq, Repr

/-- The member variables of `PlaylistModel`, plus the effect log. -/
structure PlaylistModel where
  videoSource : Option VideoSource
  searching : Bool
  canSearchMore : Bool
  m_activeVideo : Video
  m_activeRow : Int
  skip : Int
  max : Int
  errorMessage : String
  videos : List Video
  hoveredRow : Int
  authorHovered : Bool
  authorPressed : Bool
  log : List Effect
  deriving DecidableEq, Repr

/-- Line 8: `static const int maxItems = 10`. -/
def maxItems : Int := 10

/-- The constructor `PlaylistModel::PlaylistModel` (lines 12-24). -/
def init : PlaylistModel :=
  { videoSource := none
    searching := false
    canSearchMore := true
    m_activeVideo := 0
    m_activeRow := -1
    skip := 1
    max := 0
    errorMessage := ""
    videos := []
    hoveredRow := -1
    authorHovered := false
    authorPressed := false
    log := [] }

/-- Append one effect to the log. -/
def emit (s : PlaylistModel) (e : Effect) : PlaylistModel :=
  { s with log := s.log ++ [e] }

/-! ## QList operations -/

/-- The `QList::size()` of the list, as a C++ `int`. -/
def size (l : List Video) : Int := (l.length : Int)

/-- The `QList::indexOf(value)`: index of the first occurrence, `-1` if none. -/
def indexOf : List Video → Video → Int
  | [], _ => -1
  | x :: xs, v =>
    if x = v then 0
    else
      let i := indexOf xs v
      if i = -1 then -1 else i + 1

/-- The `QList::removeAt(i)`: does nothing when `i` is out of range. -/
def removeAt (l : List Video) (i : Int) : List Video :=
  if 0 ≤ i ∧ i < size l then l.eraseIdx i.toNat else l

/-- The `QList::insert(i, value)`: prepends when `i <= 0`, appends when
`i >= size()`. -/
def insert (l : List Video) (i : Int) (v : Video) : List Video :=
  if i ≤ 0 then v :: l
  else if size l ≤ i then l ++ [v]
  else l.take i.toNat ++ v :: l.drop i.toNat

/-- The `QList::removeAll(value)`. -/
def removeAll (l : List Video) (v : Video) : List Video :=
  l.filter (fun x => decide (x ≠ v))

/-- The loop `while (!videos.isEmpty()) delete videos.takeFirst();`:
returns the effects of the deletions, first element first. -/
def deleteAll : List Video → List Effect
  | [] => []
  | v :: vs => Effect.deleteVideo v :: deleteAll vs

/-! ## Queries -/

/-- Modelled from the spec: `rowExists` is declared in `playlistmodel.h`, which
is not among the sources; a row exists iff it lies in `[0, collectionSize)`. -/
def rowExists (s : PlaylistModel) (row : Int) : Bool :=
  decide (0 ≤ row ∧ row < size s.videos)

/-- `PlaylistModel::rowCount` (lines 26-34). -/
def rowCount (s : PlaylistModel) : Int :=
  let count := size s.videos
  if s.videos.isEmpty || !s.searching then count + 1 else count

/-- `PlaylistModel::videoAt` (lines 134-138). -/
def videoAt (s : PlaylistModel) (row : Int) : Video :=
  if rowExists s row then s.videos.getD row.toNat 0 else 0

/-- `PlaylistModel::activeVideo` (lines 140-142). -/
def activeVideo (s : PlaylistModel) : Video := s.m_activeVideo

/-- `PlaylistModel::rowForVideo` (lines 394-396). -/
def rowForVideo (s : PlaylistModel) (video : Video) : Int :=
  indexOf s.videos video

/-- `PlaylistModel::nextRow` (lines 120-125). -/
def nextRow (s : PlaylistModel) : Int :=
  let nextRow := s.m_activeRow + 1
  if rowExists s nextRow then nextRow else -1

/-- `PlaylistModel::previousRow` (lines 127-132). -/
def previousRow (s : PlaylistModel) : Int :=
  let prevRow := s.m_activeRow - 1
  if rowExists s prevRow then prevRow else -1

/-- The item data roles `PlaylistModel::data` distinguishes. -/
inductive Role where
  | ItemTypeRole
  | VideoRole
  | ActiveTrackRole
  | DisplayRole
  | StatusTipRole
  | TextAlignmentRole
  | ForegroundRole
  | BackgroundColorRole
  | FontRole
  | HoveredItemRole
  | AuthorHoveredRole
  | AuthorPressedRole
  | otherRole
  deriving DecidableEq, Repr

/-- The values `PlaylistModel::data` returns. -/
inductive QVariant where
  | invalid
  | itemTypeShowMore
  | itemTypeVideo
  | text (value : String)
  | bool (value : Bool)
  | video (value : Video)
  | alignCenter
  | paletteToolTipText
  | paletteDark
  | paletteToolTipBase
  | boldFont
  deriving DecidableEq, Repr

/-- `PlaylistModel::data` (lines 36-97); `title` answers `video->title()`.
The translation function `tr` is taken to be the identity. -/
def data (title : Video → String) (s : PlaylistModel) (row : Int) (role : Role) : QVariant :=
  if row = size s.videos then
    match role with
    | .ItemTypeRole => .itemTypeShowMore
    | .DisplayRole | .StatusTipRole =>
      if !s.errorMessage.isEmpty then .text s.errorMessage
      else if s.searching then .text "Searching..."
      else if s.canSearchMore then .text ("Show " ++ toString maxItems ++ " More")
      else if s.videos.isEmpty then .text "No videos"
      else .text "No more videos"
    | .TextAlignmentRole => .alignCenter
    | .ForegroundRole =>
      if !s.errorMessage.isEmpty then .paletteToolTipText else .paletteDark
    | .BackgroundColorRole =>
      if !s.errorMessage.isEmpty then .paletteToolTipBase else .invalid
    | .FontRole => .boldFont
    | _ => .invalid
  else if row < 0 ∨ row ≥ size s.videos then .invalid
  else
    let video := s.videos.getD row.toNat 0
    match role with
    | .ItemTypeRole => .itemTypeVideo
    | .VideoRole => .video video
    | .ActiveTrackRole => .bool (decide (video = s.m_activeVideo))
    | .DisplayRole => .text (title video)
    | .HoveredItemRole => .bool (decide (s.hoveredRow = row))
    | .AuthorHoveredRole => .bool s.authorHovered
    | .AuthorPressedRole => .bool s.authorPressed
    | _ => .invalid

/-! ## Pagination -/

/-- `PlaylistModel::setActiveRow` (lines 99-118). -/
def setActiveRow (s : PlaylistModel) (row : Int) : PlaylistModel :=
  if rowExists s row then
    let s1 := { s with m_activeRow := row, m_activeVideo := videoAt s row }
    let oldactiverow := s1.m_activeRow
    let s2 := if rowExists s1 oldactiverow then emit s1 (.dataChanged oldactiverow oldactiverow) else s1
    let s3 := emit s2 (.dataChanged s2.m_activeRow s2.m_activeRow)
    emit s3 (.activeRowChanged row)
  else
    { s with m_activeRow := -1, m_activeVideo := 0 }

/-- `PlaylistModel::searchMore(int max)` (lines 164-171). -/
def searchMore (s : PlaylistModel) (max : Int) : Except Fault PlaylistModel :=
  if s.searching then .ok s
  else
    let s1 := { s with searching := true, max := max, errorMessage := "" }
    match s1.videoSource with
    | none => .error .nullPointer
    | some src =>
      let s2 := emit s1 (.loadVideos src.id max s1.skip)
      .ok { s2 with skip := s2.skip + max }

/-- `PlaylistModel::searchMore()` (lines 173-175). -/
def searchMoreDefault (s : PlaylistModel) : Except Fault PlaylistModel :=
  searchMore s maxItems

/-- `PlaylistModel::setVideoSource` (lines 144-162). A `connect` whose sender
is null fails without touching the model. -/
def setVideoSource (s : PlaylistModel) (videoSource : Option VideoSource) :
    Except Fault PlaylistModel :=
  let s1 := { s with videos := [], log := s.log ++ deleteAll s.videos }
  let s2 := { s1 with m_activeVideo := 0, m_activeRow := -1, skip := 1 }
  let s3 := emit s2 .modelReset
  let s4 := { s3 with videoSource := videoSource }
  searchMoreDefault s4

/-- `PlaylistModel::searchNeeded` (lines 177-182). -/
def searchNeeded (s : PlaylistModel) : Except Fault PlaylistModel :=
  let remainingRows := size s.videos - s.m_activeRow
  let rowsNeeded := maxItems - remainingRows
  if rowsNeeded > 0 then searchMore s rowsNeeded else .ok s

/-- `PlaylistModel::abortSearch` (lines 184-190). -/
def abortSearch (s : PlaylistModel) : Except Fault PlaylistModel :=
  let s1 := { s with videos := [], log := s.log ++ deleteAll s.videos }
  let s2 := emit s1 .modelReset
  match s2.videoSource with
  | none => .error .nullPointer
  | some src =>
    let s3 := emit s2 (.abort src.id)
    .ok { s3 with searching := false }

/-- `PlaylistModel::searchFinished` (lines 192-201). -/
def searchFinished (s : PlaylistModel) (total : Int) : Except Fault PlaylistModel :=
  let s1 := { s with searching := false, canSearchMore := decide (total ≥ s.max) }
  let s2 := emit s1 (.dataChanged maxItems maxItems)
  match s2.videoSource with
  | none => .error .nullPointer
  | some src =>
    if !src.suggestions.isEmpty then .ok (emit s2 (.haveSuggestions src.suggestions))
    else .ok s2

/-- `PlaylistModel::searchError` (lines 203-207). -/
def searchError (s : PlaylistModel) (message : String) : PlaylistModel :=
  let s1 := { s with errorMessage := message }
  emit s1 (.dataChanged maxItems maxItems)

/-- `PlaylistModel::addVideo` (lines 209-264); `manualplay` is the value of
the setting of that name when the slot runs. The recent-keyword and
recent-channel bookkeeping of lines 226-260 writes to `QSettings` only; of it
the model keeps the dereference of `videoSource`. -/
def addVideo (manualplay : Bool) (s : PlaylistModel) (video : Video) :
    Except Fault PlaylistModel :=
  if video = 0 then .error .nullPointer
  else
    let s1 := emit s (.loadThumbnail video)
    let s2 := { s1 with videos := s1.videos ++ [video] }
    let s3 := emit s2 (.rowsInserted (size s1.videos) (size s1.videos))
    if size s3.videos = 1 then
      let s4 := if !manualplay then setActiveRow s3 0 else s3
      match s4.videoSource with
      | none => .error .nullPointer
      | some _ => .ok s4
    else .ok s3

/-! ## Mutation -/

/-- `PlaylistModel::removeRows` (lines 284-291); it frees no memory. -/
def removeRows (s : PlaylistModel) (position rows : Int) : PlaylistModel :=
  let videos := Nat.iterate (fun l => removeAt l position) rows.toNat s.videos
  emit { s with videos := videos } (.rowsRemoved position (position + rows - 1))

/-- The `foreach` loop of `PlaylistModel::removeIndexes` (lines 296-306) over
the rows of the indexes; the loop state is `videos`, `delitems` and the log. -/
def removeIndexesLoop (originalList : List Video) :
    List Int → List Video × List Video × List Effect →
      Except Fault (List Video × List Video × List Effect)
  | [], st => .ok st
  | row :: rest, (videos, delitems, log) =>
    if row ≥ size originalList then removeIndexesLoop originalList rest (videos, delitems, log)
    else if row < 0 then .error .outOfRange
    else
      let video := originalList.getD row.toNat 0
      let idx := indexOf videos video
      if idx ≠ -1 then
        removeIndexesLoop originalList rest
          (removeAll videos video, delitems ++ [video], log ++ [.rowsRemoved idx idx])
      else removeIndexesLoop originalList rest (videos, delitems, log)

/-- `PlaylistModel::removeIndexes` (lines 293-310); `indexes` holds the row of
each `QModelIndex`. `qDeleteAll` deletes `delitems` front to back. -/
def removeIndexes (s : PlaylistModel) (indexes : List Int) : Except Fault PlaylistModel :=
  match removeIndexesLoop s.videos indexes (s.videos, [], s.log) with
  | .error e => .error e
  | .ok (videos, delitems, log) =>
    .ok { s with videos := videos, log := log ++ deleteAll delitems }

/-- The body of the `foreach` loop of `PlaylistModel::dropMimeData`
(lines 371-382). -/
def dropVideo (beginRow : Int) (s : PlaylistModel) (video : Video) : PlaylistModel :=
  let videoRow := indexOf s.videos video
  let s1 := removeRows s videoRow 1
  let s2 := emit s1 (.rowsInserted beginRow beginRow)
  { s2 with videos := insert s2.videos beginRow video }

/-- The drop actions `PlaylistModel::dropMimeData` tells apart. -/
inductive DropAction where
  | IgnoreAction
  | MoveAction
  deriving DecidableEq, Repr

/-- What `PlaylistModel::dropMimeData` reads of its `QMimeData`: whether it
has the format `application/x-minitube-video`, and the videos it carries
when it is a `VideoMimeData` (`none` when the `dynamic_cast` fails). -/
structure MimeData where
  hasFormat : Bool
  videos : Option (List Video)
  deriving DecidableEq, Repr

/-- `PlaylistModel::dropMimeData` (lines 347-392); `parent` is the row of a
valid parent index, `none` for an invalid one. -/
def dropMimeData (s : PlaylistModel) (data : MimeData) (action : DropAction)
    (row column : Int) (parent : Option Int) : Bool × PlaylistModel :=
  if action = .IgnoreAction then (true, s)
  else if !data.hasFormat then (false, s)
  else if column > 0 then (false, s)
  else
    let beginRow :=
      if row ≠ -1 then row
      else match parent with
        | some r => r
        | none => rowCount s
    match data.videos with
    | none => (false, s)
    | some droppedVideos =>
      let s1 := droppedVideos.foldl (dropVideo beginRow) s
      let s2 := { s1 with m_activeRow := indexOf s1.videos s1.m_activeVideo }
      (true, emit s2 (.needSelectionFor droppedVideos))

/-- The first `foreach` loop of `PlaylistModel::move` (lines 405-411). -/
def movedVideos (s : PlaylistModel) : List Int → List Video
  | [] => []
  | row :: rest =>
    if row ≥ size s.videos then movedVideos s rest
    else videoAt s row :: movedVideos s rest

/-- The second `foreach` loop of `PlaylistModel::move` (lines 414-428); the
loop state is the model and the local `end`. -/
def moveLoop (up : Bool) (mod : Int) :
    List Video → PlaylistModel × Int → PlaylistModel × Int
  | [], st => st
  | video :: rest, (s, endRow) =>
    let row := rowForVideo s video
    if row + mod = endRow then moveLoop up mod rest (s, row)
    else
      let s1 := removeRows s row 1
      let row1 := if up then row - 1 else row + 1
      let s2 := emit s1 (.rowsInserted row1 row1)
      moveLoop up mod rest ({ s2 with videos := insert s2.videos row1 video }, endRow)

/-- `PlaylistModel::move` (lines 402-432). -/
def move (s : PlaylistModel) (indexes : List Int) (up : Bool) : PlaylistModel :=
  let moved := movedVideos s indexes
  let endRow := if up then -1 else rowCount s - 1
  let mod : Int := if up then -1 else 1
  let s1 := (moveLoop up mod moved (s, endRow)).1
  emit s1 (.needSelectionFor moved)

/-! ## Sequences of calls -/

/-- Consecutive calls `searchMore(c)`, one for each `c` of the list, with no
other slot running in between. -/
def searchMoreCalls (s : PlaylistModel) : List Int → Except Fault PlaylistModel
  | [] => .ok s
  | c :: cs =>
    match searchMore s c with
    | .error e => .error e
    | .ok s1 => searchMoreCalls s1 cs

/-- Consecutive `gotVideo` signals, one for each video of the list, delivered
to the slot `addVideo`. -/
def addVideoCalls (manualplay : Bool) (s : PlaylistModel) :
    List Video → Except Fault PlaylistModel
  | [] => .ok s
  | v :: vs =>
    match addVideo manualplay s v with
    | .error e => .error e
    | .ok s1 => addVideoCalls manualplay s1 vs

/-- The videos deleted according to a log, in order. -/
def destroyed : List Effect → List Video
  | [] => []
  | .deleteVideo v :: es => v :: destroyed es
  | _ :: es => destroyed es

/-- The videos standing at the requested rows of the list `l`, out-of-range
rows dropped: what a call of `removeIndexes` is asked to remove. -/
def requested (l : List Video) (rows : List Nat) : List Video :=
  rows.filterMap (fun r => l[r]?)

/-- The member variables alone: the state with the effect log emptied. -/
def members (s : PlaylistModel) : PlaylistModel := { s with log := [] }

/-! ## Example states -/

/-- A source with no suggestions. -/
def exampleSource : VideoSource := ⟨7, []⟩

/-- The initial state bound to `exampleSource`, no call made yet. -/
def boundState : PlaylistModel := { init with videoSource := some exampleSource }

/-- A state whose first fetch on `exampleSource` is in flight. -/
def fetchingState : PlaylistModel :=
  { init with
    videoSource := some exampleSource
    searching := true
    max := 10
    skip := 11 }

/-- A searching state with an old error message and no source. -/
def staleState : PlaylistModel :=
  { init with
    searching := true
    errorMessage := "network down" }

/-- A state at rest holding two videos, the first active, with an old error
message and `canSearchMore` false. -/
def restingState : PlaylistModel :=
  { init with
    videos := [1, 2]
    m_activeVideo := 1
    m_activeRow := 0
    errorMessage := "network down"
    canSearchMore := false }

/-- A state whose fetch of ten is in flight and has delivered three videos. -/
def threeArrived : PlaylistModel :=
  { init with
    videoSource := some exampleSource
    searching := true
    max := 10
    skip := 11
    videos := [1, 2, 3] }

/-- A state at rest on `exampleSource` holding three videos, the last one
active. -/
def playingState : PlaylistModel :=
  { init with
    videoSource := some exampleSource
    videos := [1, 2, 3]
    m_activeVideo := 3
    m_activeRow := 2 }

/-- The state `playingState` with a further fetch in flight. -/
def playingAndFetching : PlaylistModel :=
  { playingState with
    searching := true
    max := 10
    skip := 11 }

/-- A state at rest on `exampleSource` holding four videos, none active. -/
def fourVideos : PlaylistModel :=
  { init with
    videoSource := some exampleSource
    videos := [1, 2, 3, 4] }

/-- The effective branch of `searchMore`, as one state update. -/
theorem searchMore_ok (s : PlaylistModel) (p : VideoSource) (count : Int)
    (hs : s.searching = false) (hp : s.videoSource = some p) :
    searchMore s count = .ok { s with
      searching := true
      errorMessage := ""
      max := count
      log := s.log ++ [Effect.loadVideos p.id count s.skip]
      skip := s.skip + count } := by
  simp [searchMore, hs, hp, emit]

/-- C1. At most one fetch in flight. While `searching` is set, `searchMore`
returns with the whole state unchanged: no `loadVideos` call, and `skip`,
`max`, `errorMessage`, `searching` and `videos` as before. Consequently a run
of one or more `searchMore` calls from a state that is not searching and has a
video source, with no other slot in between, makes exactly one call
`loadVideos(c, skip)` (that of the first count `c`) and advances `skip` by `c`
only. -/
theorem searchMore_at_most_one_in_flight :
    (∀ (s : PlaylistModel) (count : Int), s.searching = true → searchMore s count = .ok s) ∧
    (∀ (s : PlaylistModel) (p : VideoSource) (c : Int) (cs : List Int),
      s.searching = false → s.videoSource = some p →
      ∃ s1, searchMoreCalls s (c :: cs) = .ok s1 ∧
        s1.log = s.log ++ [Effect.loadVideos p.id c s.skip] ∧
        s1.skip = s.skip + c ∧ s1.searching = true) := by
  have noop : ∀ (s : PlaylistModel) (count : Int),
      s.searching = true → searchMore s count = .ok s := by
    intro s count h
    simp [searchMore, h]
  have calls : ∀ (cs : List Int) (s : PlaylistModel),
      s.searching = true → searchMoreCalls s cs = .ok s := by
    intro cs
    induction cs with
    | nil => intro s _; rfl
    | cons c cs ih =>
      intro s h
      simp [searchMoreCalls, noop s c h, ih s h]
  refine ⟨noop, ?_⟩
  intro s p c cs hs hp
  have first := searchMore_ok s p c hs hp
  exact ⟨_, by simp only [searchMoreCalls, first]; exact calls cs _ rfl, rfl, rfl, rfl⟩

/-- C1, at a searching state and at a run of three calls from the initial
state bound to a source. -/
theorem searchMore_at_most_one_in_flight_witness :
    searchMore fetchingState 5 = .ok fetchingState ∧
    ∃ s1, searchMoreCalls boundState [3, 4, 5] = .ok s1 ∧
      s1.log = [Effect.loadVideos 7 3 1] ∧ s1.skip = 1 + 3 ∧ s1.searching = true :=
  ⟨searchMore_at_most_one_in_flight.1 fetchingState 5 rfl,
   searchMore_at_most_one_in_flight.2 boundState exampleSource 3 [4, 5] rfl rfl⟩

/-- C2. Effective fetch. From a state that is not searching and has a video
source, `searchMore(count)` sets `searching`, clears `errorMessage`, records
`max = count`, makes the single call `loadVideos(count, skip)` with the `skip`
of before the call, and leaves `skip` advanced by `count`; nothing else
changes. -/
theorem searchMore_effective (s : PlaylistModel) (p : VideoSource) (count : Int)
    (hs : s.searching = false) (hp : s.videoSource = some p) :
    searchMore s count = .ok { s with
      searching := true
      errorMessage := ""
      max := count
      log := s.log ++ [Effect.loadVideos p.id count s.skip]
      skip := s.skip + count } :=
  searchMore_ok s p count hs hp

/-- C2, at the initial state bound to a source, with count 10. -/
theorem searchMore_effective_witness :
    searchMore boundState 10 =
      .ok { init with
        videoSource := some exampleSource
        searching := true
        errorMessage := ""
        max := 10
        log := [Effect.loadVideos 7 10 1]
        skip := 1 + 10 } :=
  searchMore_effective boundState exampleSource 10 rfl rfl

/-- Deleting a list of videos logs exactly those deletions. -/
theorem destroyed_deleteAll (l : List Video) : destroyed (deleteAll l) = l := by
  induction l with
  | nil => rfl
  | cons v vs ih => simp [deleteAll, destroyed, ih]

/-- The deletions of a log are read off piecewise. -/
theorem destroyed_append (a b : List Effect) :
    destroyed (a ++ b) = destroyed a ++ destroyed b := by
  induction a with
  | nil => rfl
  | cons e es ih => cases e <;> simp [destroyed, ih]

/-- The call `setVideoSource(p)` from a state that is not searching, as one
state update. -/
theorem setVideoSource_ok (s : PlaylistModel) (p : VideoSource) (hs : s.searching = false) :
    setVideoSource s (some p) = .ok { s with
      videos := []
      m_activeVideo := 0
      m_activeRow := -1
      videoSource := some p
      searching := true
      errorMessage := ""
      max := maxItems
      skip := 1 + maxItems
      log := s.log ++ deleteAll s.videos ++ [Effect.modelReset, Effect.loadVideos p.id maxItems 1] } := by
  simp [setVideoSource, searchMoreDefault, searchMore, hs, emit]

/-- The call `setVideoSource` from a searching state, for any source, null
or not: the reset happens and `searchMore` returns at its guard. -/
theorem setVideoSource_searching (s : PlaylistModel) (v : Option VideoSource)
    (hs : s.searching = true) :
    setVideoSource s v = .ok { s with
      videos := []
      m_activeVideo := 0
      m_activeRow := -1
      skip := 1
      videoSource := v
      log := s.log ++ deleteAll s.videos ++ [Effect.modelReset] } := by
  simp only [setVideoSource, searchMoreDefault, searchMore, emit, hs, if_true]

/-- C4 fails on the code. `searchError` stores the message and never touches
`searching`: at a state with a fetch in flight the state is still searching
after the error, and the next `searchMore` call does nothing. -/
theorem searchError_keeps_searching :
    (∀ (s : PlaylistModel) (message : String),
      (searchError s message).searching = s.searching ∧
      (searchError s message).errorMessage = message) ∧
    (searchError fetchingState "network down").searching = true ∧
    searchMore (searchError fetchingState "network down") 10 =
      .ok (searchError fetchingState "network down") :=
  ⟨fun _ _ => ⟨rfl, rfl⟩, rfl, rfl⟩

/-- C5. Successful completion. For every state with a video source bound (the
source whose `finished` signal this is) and every `total`,
`searchFinished(total)` returns with `searching = false` and
`canSearchMore = (total >= max)`, and with `videos`, the active video and
row, `skip` and `errorMessage` unchanged. In the scenario of a fresh binding
whose source delivers three videos and then finishes with `total = 3` while
`max = 10`, `canSearchMore` is false and the status row reads
"No more videos". -/
theorem searchFinished_completion :
    (∀ (s : PlaylistModel) (p : VideoSource) (total : Int), s.videoSource = some p →
      ∃ s1, searchFinished s total = .ok s1 ∧
        s1.searching = false ∧ s1.canSearchMore = decide (total ≥ s.max) ∧
        s1.videos = s.videos ∧ s1.m_activeVideo = s.m_activeVideo ∧
        s1.m_activeRow = s.m_activeRow ∧ s1.skip = s.skip ∧
        s1.errorMessage = s.errorMessage) ∧
    (∃ s1 s2 s3, setVideoSource init (some exampleSource) = .ok s1 ∧
      addVideoCalls false s1 [1, 2, 3] = .ok s2 ∧ s2.max = 10 ∧
      searchFinished s2 3 = .ok s3 ∧ s3.canSearchMore = false ∧
      ∀ title, data title s3 (size s3.videos) .DisplayRole = .text "No more videos") := by
  constructor
  · intro s p total hp
    unfold searchFinished
    simp only [emit, hp]
    split <;> exact ⟨_, rfl, rfl, rfl, rfl, rfl, rfl, rfl, rfl⟩
  · exact ⟨_, _, _, rfl, rfl, rfl, rfl, rfl, fun _ => rfl⟩

/-- C5, at a searching state with `max = 10` and `total = 3`. -/
theorem searchFinished_completion_witness :
    ∃ s1, searchFinished threeArrived 3 = .ok s1 ∧
      s1.searching = false ∧ s1.canSearchMore = decide ((3 : Int) ≥ 10) ∧
      s1.videos = [1, 2, 3] ∧ s1.m_activeVideo = 0 ∧ s1.m_activeRow = -1 ∧ s1.skip = 11 ∧
      s1.errorMessage = "" :=
  searchFinished_completion.1 threeArrived exampleSource 3 rfl

/-- C6. Row count formula: `rowCount()` is the number of videos plus one when
the list is empty or no search is running, and the number of videos
otherwise. -/
theorem rowCount_formula (s : PlaylistModel) :
    rowCount s =
      if s.videos = [] ∨ s.searching = false then (s.videos.length : Int) + 1
      else (s.videos.length : Int) := by
  cases hv : s.videos <;> cases hb : s.searching <;> simp [rowCount, size, hv, hb]

/-- What `setActiveRow` leaves alone. -/
theorem setActiveRow_frame (s : PlaylistModel) (row : Int) :
    (setActiveRow s row).videos = s.videos ∧
    (setActiveRow s row).searching = s.searching ∧
    (setActiveRow s row).videoSource = s.videoSource := by
  unfold setActiveRow
  split
  · simp only [emit]
    split <;> exact ⟨rfl, rfl, rfl⟩
  · exact ⟨rfl, rfl, rfl⟩

/-- The first-result branch of `addVideo` at a state with a source: it
returns, and leaves the list, `searching` and the source alone. -/
theorem firstResult_ok (manualplay : Bool) (t : PlaylistModel) (p : VideoSource)
    (hp : t.videoSource = some p) :
    ∃ s1, (match (if (!manualplay) = true then setActiveRow t 0 else t).videoSource with
        | none => (Except.error Fault.nullPointer : Except Fault PlaylistModel)
        | some _ => Except.ok (if (!manualplay) = true then setActiveRow t 0 else t)) = .ok s1 ∧
      s1.videos = t.videos ∧ s1.searching = t.searching ∧ s1.videoSource = some p := by
  have hf := setActiveRow_frame t 0
  cases manualplay
  · simp only [Bool.not_false, if_true, hf.2.2, hp]
    exact ⟨_, rfl, hf.1, hf.2.1, by rw [hf.2.2, hp]⟩
  · simp only [Bool.not_true, Bool.false_eq_true, if_false, hp]
    exact ⟨_, rfl, rfl, rfl, hp⟩

/-- One arrival of a non-null video at a state with a source: the slot
returns, the video is appended last, and `searching` and the source stay. -/
theorem addVideo_ok (manualplay : Bool) (s : PlaylistModel) (p : VideoSource) (video : Video)
    (hv : video ≠ 0) (hp : s.videoSource = some p) :
    ∃ s1, addVideo manualplay s video = .ok s1 ∧ s1.videos = s.videos ++ [video] ∧
      s1.searching = s.searching ∧ s1.videoSource = some p := by
  unfold addVideo
  rw [if_neg hv]
  simp only []
  split
  · exact firstResult_ok manualplay _ p hp
  · exact ⟨_, rfl, rfl, rfl, hp⟩

/-- A run of arrivals of non-null videos at a state with a source: every
slot call returns, the videos are appended in order, and `searching` and the
source stay. -/
theorem addVideoCalls_ok (manualplay : Bool) (p : VideoSource) (vs : List Video) :
    ∀ s : PlaylistModel, (∀ v ∈ vs, v ≠ 0) → s.videoSource = some p →
      ∃ s1, addVideoCalls manualplay s vs = .ok s1 ∧ s1.videos = s.videos ++ vs ∧
        s1.searching = s.searching ∧ s1.videoSource = some p := by
  induction vs with
  | nil => intro s _ hp; exact ⟨s, rfl, by simp, rfl, hp⟩
  | cons v vs ih =>
    intro s hvs hp
    obtain ⟨s1, h1, hv1, hs1, hp1⟩ :=
      addVideo_ok manualplay s p v (hvs v (List.mem_cons_self v vs)) hp
    obtain ⟨s2, h2, hv2, hs2, hp2⟩ :=
      ih s1 (fun w hw => hvs w (List.mem_cons_of_mem v hw)) hp1
    refine ⟨s2, ?_, ?_, ?_, hp2⟩
    · simp only [addVideoCalls, h1, h2]
    · rw [hv2, hv1]; simp
    · rw [hs2, hs1]

/-- C7, as stated, fails already for one arrival: after a fresh binding and
one `addVideo`, the search is still running on a non-empty list, so
`rowCount()` is 1, not 2. -/
theorem rowCount_after_first_arrival :
    ∃ s1 s2, setVideoSource init (some exampleSource) = .ok s1 ∧
      addVideoCalls false s1 [1] = .ok s2 ∧ rowCount s2 = 1 ∧ rowCount s2 ≠ 1 + 1 :=
  ⟨_, _, rfl, rfl, by decide, by decide⟩

/-- C7, amended. After `setVideoSource` from a state that is not searching,
followed by the arrival of the `N` non-null videos of `vs` and neither
`searchFinished` nor `searchError`, `rowCount()` is 1 when `N = 0` and `N`
when `N >= 1`: the message row is hidden while the search runs on a non-empty
list. -/
theorem rowCount_during_first_batch (manualplay : Bool) (s : PlaylistModel) (p : VideoSource)
    (vs : List Video) (hs : s.searching = false) (hvs : ∀ v ∈ vs, v ≠ 0) :
    ∃ s1 s2, setVideoSource s (some p) = .ok s1 ∧ addVideoCalls manualplay s1 vs = .ok s2 ∧
      rowCount s2 = if vs.length = 0 then 1 else (vs.length : Int) := by
  obtain ⟨s1, h1, hp1, hs1, hv1⟩ : ∃ s1, setVideoSource s (some p) = .ok s1 ∧
      s1.videoSource = some p ∧ s1.searching = true ∧ s1.videos = [] :=
    ⟨_, setVideoSource_ok s p hs, rfl, rfl, rfl⟩
  obtain ⟨s2, h2, hv2, hs2, _⟩ := addVideoCalls_ok manualplay p vs s1 hvs hp1
  refine ⟨s1, s2, h1, h2, ?_⟩
  rw [hv1, List.nil_append] at hv2
  have hsearch : s2.searching = true := by rw [hs2, hs1]
  cases vs with
  | nil => simp [rowCount, size, hv2]
  | cons v vs => simp [rowCount, size, hv2, hsearch]

/-- C7 amended, at the initial state with three arrivals. -/
theorem rowCount_during_first_batch_witness :
    ∃ s1 s2, setVideoSource init (some exampleSource) = .ok s1 ∧
      addVideoCalls false s1 [1, 2, 3] = .ok s2 ∧
      rowCount s2 = if [1, 2, 3].length = 0 then 1 else (([1, 2, 3] : List Video).length : Int) :=
  rowCount_during_first_batch false init exampleSource [1, 2, 3] rfl (by decide)

/-- C8 fails on the code. `addVideo` takes an arrival for the first result
whenever the list holds one video afterwards. After a binding, the arrival of
video 1 (made active), and the removal of row 0, the arrival of video 2, which
is not the first video added for the binding, changes the active video from
1 to 2. -/
theorem addVideo_activates_again_after_removal :
    ∃ s1 s2 s3 s4, setVideoSource init (some exampleSource) = .ok s1 ∧
      addVideo false s1 1 = .ok s2 ∧ removeIndexes s2 [0] = .ok s3 ∧
      addVideo false s3 2 = .ok s4 ∧
      s3.m_activeRow = 0 ∧ s3.m_activeVideo = 1 ∧ s3.videos = [] ∧
      s4.m_activeRow = 0 ∧ s4.m_activeVideo = 2 ∧ s4.videos = [2] :=
  ⟨_, _, _, _, rfl, rfl, rfl, rfl, rfl, rfl, rfl, rfl, rfl, rfl⟩

/-- C9. Status row text. At the row equal to the number of videos the display
text is `errorMessage` when that is not empty, else "Searching..." while
searching, else "Show 10 More" when `canSearchMore`, else "No videos" on an
empty list and "No more videos" otherwise. In particular, after
`setVideoSource` (from any state) and an immediate `searchError(m)` with `m`
not empty, the text at row 0 is `m` and `rowCount()` is 1. -/
theorem status_row_text :
    (∀ (title : Video → String) (s : PlaylistModel),
      data title s (size s.videos) .DisplayRole = .text
        (if s.errorMessage ≠ "" then s.errorMessage
         else if s.searching = true then "Searching..."
         else if s.canSearchMore = true then "Show 10 More"
         else if s.videos = [] then "No videos"
         else "No more videos")) ∧
    (∀ (title : Video → String) (s : PlaylistModel) (p : VideoSource) (m : String), m ≠ "" →
      ∃ s1, setVideoSource s (some p) = .ok s1 ∧
        data title (searchError s1 m) 0 .DisplayRole = .text m ∧
        rowCount (searchError s1 m) = 1) := by
  have hshow : "Show " ++ toString maxItems ++ " More" = "Show 10 More" := by decide
  constructor
  · intro title s
    unfold data
    rw [if_pos rfl, hshow]
    by_cases he : s.errorMessage = ""
    · have he2 : s.errorMessage.isEmpty = true := (String.isEmpty_iff _).2 he
      simp only [he2, Bool.not_true, Bool.false_eq_true, if_false]
      cases hs : s.searching <;> cases hc : s.canSearchMore <;> cases hv : s.videos <;>
        simp [he]
    · have he2 : s.errorMessage.isEmpty = false := by
        cases h : s.errorMessage.isEmpty
        · rfl
        · exact absurd ((String.isEmpty_iff _).1 h) he
      simp [he, he2]
  · intro title s p m hm
    have hm2 : m.isEmpty = false := by
      cases h : m.isEmpty
      · rfl
      · exact absurd ((String.isEmpty_iff _).1 h) hm
    obtain ⟨s1, h1, hv1⟩ : ∃ s1, setVideoSource s (some p) = .ok s1 ∧ s1.videos = [] := by
      cases hs : s.searching
      · exact ⟨_, setVideoSource_ok s p hs, rfl⟩
      · exact ⟨_, by simp [setVideoSource, searchMoreDefault, searchMore, hs, emit]; rfl, rfl⟩
    refine ⟨s1, h1, ?_, ?_⟩
    · simp [data, searchError, emit, hv1, size, hm2]
    · simp [rowCount, searchError, emit, hv1, size]

/-- C9, at the initial state and the message "network down". -/
theorem status_row_text_witness :
    ∃ s1, setVideoSource init (some exampleSource) = .ok s1 ∧
      data (fun _ => "") (searchError s1 "network down") 0 .DisplayRole = .text "network down" ∧
      rowCount (searchError s1 "network down") = 1 :=
  status_row_text.2 (fun _ => "") init exampleSource "network down" (by decide)

/-- The answer of `indexOf` is `-1` exactly for an absent value, and never
below `-1`. -/
theorem indexOf_spec (l : List Video) (v : Video) :
    (indexOf l v = -1 ↔ v ∉ l) ∧ -1 ≤ indexOf l v := by
  induction l with
  | nil => simp [indexOf]
  | cons x xs ih =>
    unfold indexOf
    by_cases hx : x = v
    · simp [hx]
    · rw [if_neg hx]
      by_cases hi : indexOf xs v = -1
      · have hnot : v ∉ xs := ih.1.1 hi
        simp [hi, hnot, Ne.symm hx]
      · have hmem : v ∈ xs := by
          by_contra hc
          exact hi (ih.1.2 hc)
        have hge := ih.2
        simp only [hi, if_false]
        constructor
        · constructor
          · intro h; omega
          · intro h; exact absurd (List.mem_cons_of_mem x hmem) h
        · omega

/-- Invariant of the loop of `removeIndexes` over its original list `l`: the
current list is `l` without the videos collected in `delitems`, which holds no
video twice; the loop returns, collects exactly the requested videos on top,
and logs no deletion. -/
theorem removeIndexesLoop_spec (l : List Video) (rows : List Nat) :
    ∀ (del : List Video) (log : List Effect), del.Nodup →
      ∃ del1 log1,
        removeIndexesLoop l (rows.map Int.ofNat)
            (l.filter (fun x => decide (x ∉ del)), del, log) =
          .ok (l.filter (fun x => decide (x ∉ del1)), del1, log1) ∧
        del1.Nodup ∧ (∀ x, x ∈ del1 ↔ x ∈ del ∨ x ∈ requested l rows) ∧
        destroyed log1 = destroyed log := by
  induction rows with
  | nil =>
    intro del log hnd
    exact ⟨del, log, rfl, hnd, by simp [requested], rfl⟩
  | cons r rows ih =>
    intro del log hnd
    simp only [List.map_cons, removeIndexesLoop]
    by_cases hr : l.length ≤ r
    · have hge : Int.ofNat r ≥ size l := by
        simp only [size, Int.ofNat_eq_coe]
        exact_mod_cast hr
      have hnone : l[r]? = none := List.getElem?_eq_none hr
      obtain ⟨del1, log1, h1, hnd1, hmem1, hlog1⟩ := ih del log hnd
      refine ⟨del1, log1, ?_, hnd1, ?_, hlog1⟩
      · rw [if_pos hge]; exact h1
      · intro x
        rw [hmem1 x]
        simp [requested, hnone]
    · have hlt : r < l.length := Nat.lt_of_not_le hr
      have hge : ¬ (Int.ofNat r ≥ size l) := by
        simp only [size, Int.ofNat_eq_coe]
        intro h
        exact hr (by exact_mod_cast h)
      have hneg : ¬ (Int.ofNat r < 0) := by
        simp only [Int.ofNat_eq_coe]
        omega
      have hsome : l[r]? = some l[r] := List.getElem?_eq_getElem hlt
      have hget : l.getD (Int.ofNat r).toNat 0 = l[r] := by
        simp only [Int.ofNat_eq_coe, Int.toNat_ofNat]
        exact List.getD_eq_getElem l 0 hlt
      have hin : l[r] ∈ l := List.getElem_mem hlt
      rw [if_neg hge, if_neg hneg]
      simp only [hget]
      by_cases hd : l[r] ∈ del
      · have hidx : indexOf (l.filter (fun x => decide (x ∉ del))) l[r] = -1 :=
          (indexOf_spec _ _).1.2 (by simp [List.mem_filter, hd])
        obtain ⟨del1, log1, h1, hnd1, hmem1, hlog1⟩ := ih del log hnd
        refine ⟨del1, log1, ?_, hnd1, ?_, hlog1⟩
        · simp only [hidx, ne_eq, not_true_eq_false, if_false]
          exact h1
        · intro x
          rw [hmem1 x]
          simp only [requested, List.filterMap_cons, hsome, List.mem_cons]
          constructor
          · rintro (h | h)
            · exact Or.inl h
            · exact Or.inr (Or.inr h)
          · rintro (h | h | h)
            · exact Or.inl h
            · exact Or.inl (h ▸ hd)
            · exact Or.inr h
      · have hidx : indexOf (l.filter (fun x => decide (x ∉ del))) l[r] ≠ -1 := by
          intro h
          exact (indexOf_spec _ _).1.1 h (by simp [List.mem_filter, hd, hin])
        have hnd2 : (del ++ [l[r]]).Nodup := by
          rw [List.nodup_append]
          refine ⟨hnd, List.nodup_singleton _, ?_⟩
          intro a ha hb
          rw [List.mem_singleton] at hb
          exact hd (hb ▸ ha)
        have hfilter : removeAll (l.filter (fun x => decide (x ∉ del))) l[r] =
            l.filter (fun x => decide (x ∉ del ++ [l[r]])) := by
          unfold removeAll
          rw [List.filter_filter]
          apply List.filter_congr
          intro x _
          simp only [List.mem_append, List.mem_singleton, not_or, ne_eq]
          by_cases h1 : x = l[r] <;> by_cases h2 : x ∈ del <;> simp [h1, h2]
        obtain ⟨del1, log1, h1, hnd1, hmem1, hlog1⟩ :=
          ih (del ++ [l[r]])
            (log ++ [Effect.rowsRemoved (indexOf (l.filter (fun x => decide (x ∉ del))) l[r])
              (indexOf (l.filter (fun x => decide (x ∉ del))) l[r])]) hnd2
        refine ⟨del1, log1, ?_, hnd1, ?_, ?_⟩
        · rw [if_pos hidx, hfilter]
          exact h1
        · intro x
          rw [hmem1 x]
          simp only [requested, List.filterMap_cons, hsome, List.mem_cons, List.mem_append,
            List.not_mem_nil, or_false]
          constructor
          · rintro ((h | h) | h)
            · exact Or.inl h
            · exact Or.inr (Or.inl h)
            · exact Or.inr (Or.inr h)
          · rintro (h | h | h)
            · exact Or.inl (Or.inl h)
            · exact Or.inl (Or.inr h)
            · exact Or.inr h
        · rw [hlog1, destroyed_append]
          simp [destroyed]

/-- C10. `removeIndexes` removes exactly the requested videos and deletes
each once. For every list of videos (duplicate-free or not) and every list of
non-negative rows, repeats and rows past the end included, the call returns;
afterwards the list is the original one without the videos that stood at the
requested in-range rows of the original list, the others in their original
order; `rowForVideo` answers `-1` for every removed video; and the videos the
call deletes are the removed ones, each exactly once, and nothing else. -/
theorem removeIndexes_removes_requested (s : PlaylistModel) (rows : List Nat) :
    ∃ s1 del, removeIndexes s (rows.map Int.ofNat) = .ok s1 ∧
      s1.videos = s.videos.filter (fun x => decide (x ∉ requested s.videos rows)) ∧
      (∀ x ∈ requested s.videos rows, rowForVideo s1 x = -1) ∧
      destroyed s1.log = destroyed s.log ++ del ∧
      (∀ x, del.count x = if x ∈ requested s.videos rows then 1 else 0) := by
  obtain ⟨del1, log1, h1, hnd1, hmem1, hlog1⟩ :=
    removeIndexesLoop_spec s.videos rows [] s.log List.nodup_nil
  have h0 : s.videos.filter (fun x => decide (x ∉ ([] : List Video))) = s.videos := by simp
  rw [h0] at h1
  have hvideos : s.videos.filter (fun x => decide (x ∉ del1)) =
      s.videos.filter (fun x => decide (x ∉ requested s.videos rows)) := by
    apply List.filter_congr
    intro x _
    have := hmem1 x
    simp only [List.not_mem_nil, false_or] at this
    simp [this]
  refine ⟨{ s with videos := s.videos.filter (fun x => decide (x ∉ del1)),
                   log := log1 ++ deleteAll del1 }, del1, ?_, hvideos, ?_, ?_, ?_⟩
  · simp only [removeIndexes, h1]
  · intro x hx
    apply (indexOf_spec _ _).1.2
    show x ∉ s.videos.filter (fun x => decide (x ∉ del1))
    rw [hvideos]
    simp [List.mem_filter, hx]
  · show destroyed (log1 ++ deleteAll del1) = destroyed s.log ++ del1
    rw [destroyed_append, destroyed_deleteAll, hlog1]
  · intro x
    have := hmem1 x
    simp only [List.not_mem_nil, false_or] at this
    by_cases hx : x ∈ requested s.videos rows
    · rw [if_pos hx]
      exact List.count_eq_one_of_mem hnd1 (this.2 hx)
    · rw [if_neg hx]
      exact List.count_eq_zero_of_not_mem (fun h => hx (this.1 h))

/-- C11 fails on the code. Neither `removeIndexes` nor `abortSearch` touches
`m_activeVideo` or `m_activeRow`: with videos 1, 2, 3 and video 3 active at
row 2, removing row 2 deletes video 3 and leaves it recorded as the active
video at row 2, and `abortSearch` deletes all three videos and leaves video 3
recorded as active too. `setVideoSource` does clear both members. -/
theorem active_video_dangles_after_delete :
    (∃ s1, removeIndexes playingState [2] = .ok s1 ∧ s1.videos = [1, 2] ∧
      destroyed s1.log = [3] ∧ s1.m_activeVideo = 3 ∧ s1.m_activeRow = 2 ∧
      s1.m_activeVideo ∉ s1.videos) ∧
    (∃ s1, abortSearch playingState = .ok s1 ∧ s1.videos = [] ∧
      destroyed s1.log = [1, 2, 3] ∧ s1.m_activeVideo = 3 ∧ s1.m_activeRow = 2) ∧
    (∃ s1, setVideoSource playingState (some exampleSource) = .ok s1 ∧ s1.videos = [] ∧
      destroyed s1.log = [1, 2, 3] ∧ s1.m_activeVideo = 0 ∧ s1.m_activeRow = -1) :=
  ⟨⟨_, rfl, rfl, rfl, rfl, rfl, by decide⟩, ⟨_, rfl, rfl, rfl, rfl, rfl⟩,
    ⟨_, rfl, rfl, rfl, rfl, rfl⟩⟩

/-- For a value of the list, `indexOf` answers the position of its first
occurrence. -/
theorem indexOf_mem (l : List Video) (v : Video) (h : v ∈ l) :
    indexOf l v = (List.indexOf v l : Int) := by
  induction l with
  | nil => cases h
  | cons x xs ih =>
    unfold indexOf
    by_cases hx : x = v
    · subst hx
      simp
    · have hv : v ∈ xs := by
        rcases List.mem_cons.1 h with h1 | h1
        · exact absurd h1.symm hx
        · exact h1
      have hne : indexOf xs v ≠ -1 := fun hc => (indexOf_spec xs v).1.1 hc hv
      rw [if_neg hx]
      simp only [hne, if_false]
      rw [ih hv, List.indexOf_cons_ne xs hx]
      push_cast
      rfl

/-- Removing at the index of a value erases its first occurrence; for an
absent value, index `-1`, nothing is removed. -/
theorem removeAt_indexOf (l : List Video) (v : Video) :
    removeAt l (indexOf l v) = l.erase v := by
  by_cases h : v ∈ l
  · have hlt : List.indexOf v l < l.length := List.indexOf_lt_length.2 h
    rw [indexOf_mem l v h]
    unfold removeAt size
    rw [if_pos ⟨by omega, by exact_mod_cast hlt⟩]
    simp only [Int.toNat_ofNat]
    exact List.eraseIdx_indexOf_eq_erase v l
  · rw [(indexOf_spec l v).1.2 h]
    unfold removeAt
    rw [if_neg (by omega)]
    exact (List.erase_of_not_mem h).symm

/-- The call `removeRows(position, 1)` on the list. -/
theorem removeRows_one_videos (s : PlaylistModel) (position : Int) :
    (removeRows s position 1).videos = removeAt s.videos position := by
  simp [removeRows, emit]

/-- What `removeRows` leaves alone. -/
theorem removeRows_frame (s : PlaylistModel) (position rows : Int) :
    (removeRows s position rows).m_activeVideo = s.m_activeVideo ∧
    (removeRows s position rows).m_activeRow = s.m_activeRow ∧
    (removeRows s position rows).searching = s.searching := by
  simp [removeRows, emit]

/-- An insertion adds the value and keeps everything else. -/
theorem insert_perm (l : List Video) (i : Int) (v : Video) :
    List.Perm (insert l i v) (v :: l) := by
  unfold insert
  split
  · exact List.Perm.refl _
  · split
    · exact List.perm_append_singleton v l
    · have h := @List.perm_middle _ v (l.take i.toNat) (l.drop i.toNat)
      rw [List.take_append_drop] at h
      exact h

/-- One round of the drop loop on the list: the first occurrence of the video
is erased and the video inserted at the target row. -/
theorem dropVideo_videos (beginRow : Int) (s : PlaylistModel) (video : Video) :
    (dropVideo beginRow s video).videos = insert (s.videos.erase video) beginRow video := by
  simp only [dropVideo, emit, removeRows_one_videos, removeAt_indexOf]

/-- One round of the drop loop leaves the active video alone. -/
theorem dropVideo_activeVideo (beginRow : Int) (s : PlaylistModel) (video : Video) :
    (dropVideo beginRow s video).m_activeVideo = s.m_activeVideo := by
  simp [dropVideo, emit, removeRows]

/-- One round of the drop loop with a video of the list permutes the list. -/
theorem dropVideo_perm (beginRow : Int) (s : PlaylistModel) (video : Video)
    (h : video ∈ s.videos) :
    List.Perm (dropVideo beginRow s video).videos s.videos := by
  rw [dropVideo_videos]
  exact (insert_perm _ _ _).trans (List.perm_cons_erase h).symm

/-- Inserting at the row just after a front part puts the value there. -/
theorem insert_length_append (pre rest : List Video) (v : Video) :
    insert (pre ++ rest) (pre.length : Int) v = pre ++ v :: rest := by
  unfold insert size
  by_cases h0 : (pre.length : Int) ≤ 0
  · have hp : pre = [] := List.length_eq_zero.1 (by omega)
    subst hp
    simp
  · rw [if_neg h0]
    by_cases h1 : (((pre ++ rest).length : Nat) : Int) ≤ (pre.length : Int)
    · have hr : rest = [] := by
        apply List.length_eq_zero.1
        have : (pre ++ rest).length ≤ pre.length := by exact_mod_cast h1
        rw [List.length_append] at this
        omega
      subst hr
      rw [if_pos h1]
      simp
    · rw [if_neg h1]
      simp

/-- The video standing at an existing row. -/
theorem videoAt_row (s : PlaylistModel) (r : Nat) (hr : r < s.videos.length) :
    videoAt s (r : Int) = s.videos[r] := by
  unfold videoAt rowExists size
  have h : (0 : Int) ≤ (r : Int) ∧ (r : Int) < (s.videos.length : Int) :=
    ⟨by omega, by exact_mod_cast hr⟩
  simp only [h, and_self, decide_True, if_true, Int.toNat_ofNat]
  exact List.getD_eq_getElem s.videos 0 hr

/-- In a duplicate-free list `indexOf` finds a video at its own row. -/
theorem indexOf_getElem_nodup (l : List Video) (r : Nat) (hr : r < l.length) (hnd : l.Nodup) :
    indexOf l l[r] = (r : Int) := by
  rw [indexOf_mem l l[r] (List.getElem_mem hr), List.indexOf_getElem hnd r hr]

/-- The call `move` for the single existing row `r` of a duplicate-free list:
the list, unchanged when `r + mod` is the boundary `end`, and otherwise with
the video erased and inserted at row `r + mod`; the active video and the
recorded active row stay as they are. -/
theorem move_single (s : PlaylistModel) (r : Nat) (up : Bool) (hr : r < s.videos.length)
    (hnd : s.videos.Nodup) :
    (move s [(r : Int)] up).videos =
        (if (r : Int) + (if up then -1 else 1) = (if up then -1 else rowCount s - 1)
         then s.videos
         else insert (s.videos.erase s.videos[r])
           (if up then (r : Int) - 1 else (r : Int) + 1) s.videos[r]) ∧
      (move s [(r : Int)] up).m_activeVideo = s.m_activeVideo ∧
      (move s [(r : Int)] up).m_activeRow = s.m_activeRow := by
  have hge : ¬ ((r : Int) ≥ size s.videos) := by
    unfold size
    intro h
    have : s.videos.length ≤ r := by exact_mod_cast h
    omega
  have hmoved : movedVideos s [(r : Int)] = [s.videos[r]] := by
    simp only [movedVideos, if_neg hge, videoAt_row s r hr]
  have hrow : rowForVideo s s.videos[r] = (r : Int) := indexOf_getElem_nodup s.videos r hr hnd
  have herase : removeAt s.videos (r : Int) = s.videos.erase s.videos[r] := by
    rw [← hrow]
    exact removeAt_indexOf s.videos s.videos[r]
  unfold move
  simp only [hmoved, moveLoop, hrow, emit]
  cases up
  · simp only [Bool.false_eq_true, if_false]
    by_cases hc : (r : Int) + 1 = rowCount s - 1
    · simp only [if_pos hc, and_self]
    · simp only [if_neg hc, removeRows_one_videos, herase, removeRows_frame, and_self]
  · simp only [if_true]
    by_cases hc : (r : Int) + -1 = -1
    · simp only [if_pos hc, and_self]
    · simp only [if_neg hc, removeRows_one_videos, herase, removeRows_frame, and_self]

/-- The `ActiveTrackRole` of an existing row compares its video with the
active video. -/
theorem data_activeTrack (title : Video → String) (s : PlaylistModel) (row : Nat)
    (h : row < s.videos.length) :
    data title s (row : Int) .ActiveTrackRole = .bool (decide (s.videos[row] = s.m_activeVideo)) := by
  have h1 : ¬ ((row : Int) = size s.videos) := by
    unfold size
    intro hc
    have : row = s.videos.length := by exact_mod_cast hc
    omega
  have h2 : ¬ ((row : Int) < 0 ∨ (row : Int) ≥ size s.videos) := by
    unfold size
    rintro (hc | hc)
    · omega
    · have : s.videos.length ≤ row := by exact_mod_cast hc
      omega
  unfold data
  rw [if_neg h1, if_neg h2]
  simp only [Int.toNat_ofNat, List.getD_eq_getElem s.videos 0 h]

/-- A list split around two neighbouring rows. -/
theorem split_at_rows (l : List Video) (k : Nat) (h : k + 1 < l.length) :
    l = l.take k ++ l[k] :: l[k + 1] :: l.drop (k + 2) := by
  have h1 : l.drop k = l[k] :: l.drop (k + 1) := List.drop_eq_getElem_cons (by omega)
  have h2 : l.drop (k + 1) = l[k + 1] :: l.drop (k + 2) := List.drop_eq_getElem_cons h
  calc l = l.take k ++ l.drop k := (List.take_append_drop k l).symm
    _ = l.take k ++ l[k] :: l[k + 1] :: l.drop (k + 2) := by rw [h1, h2]

/-- Erasing the second of two neighbours and inserting it at the row of the
first swaps the two. -/
theorem erase_insert_before (pre post : List Video) (a b : Video)
    (hnd : (pre ++ a :: b :: post).Nodup) :
    insert ((pre ++ a :: b :: post).erase b) (pre.length : Int) b = pre ++ b :: a :: post := by
  have hb : b ∉ pre := by
    intro hc
    have := (List.nodup_append.1 hnd).2.2 hc
    exact this (by simp)
  have hab : a ≠ b := by
    have h2 := (List.nodup_append.1 hnd).2.1
    intro hc
    subst hc
    simp at h2
  have herase : (pre ++ a :: b :: post).erase b = pre ++ a :: post := by
    rw [List.erase_append_right _ hb, List.erase_cons_tail (by simpa using hab),
      List.erase_cons_head]
  rw [herase, insert_length_append]

/-- The call `move` up for the row `k + 1` of a duplicate-free list split
around the rows `k` and `k + 1`. -/
theorem move_up_split (s : PlaylistModel) (pre post : List Video) (a b : Video) (k : Nat)
    (hk : pre.length = k) (hL : s.videos = pre ++ a :: b :: post) (hnd : s.videos.Nodup) :
    (move s [((k + 1 : Nat) : Int)] true).videos = pre ++ b :: a :: post ∧
      (move s [((k + 1 : Nat) : Int)] true).m_activeVideo = s.m_activeVideo := by
  subst hk
  have hr : pre.length + 1 < s.videos.length := by
    rw [hL]
    simp
  have hb : s.videos[pre.length + 1] = b := by
    simp only [hL]
    rw [List.getElem_append_right (by omega)]
    simp
  obtain ⟨hv, ha, _⟩ := move_single s (pre.length + 1) true hr hnd
  refine ⟨?_, ha⟩
  rw [hv]
  have hc : ¬ (((pre.length + 1 : Nat) : Int) + (if true = true then -1 else 1) =
      (if true = true then -1 else rowCount s - 1)) := by
    simp only [if_true]
    omega
  rw [if_neg hc, hb]
  have hpos : (if true = true then ((pre.length + 1 : Nat) : Int) - 1
      else ((pre.length + 1 : Nat) : Int) + 1) = (pre.length : Int) := by
    simp
  rw [hpos]
  have hnd2 : (pre ++ a :: b :: post).Nodup := hL ▸ hnd
  have key := erase_insert_before pre post a b hnd2
  rw [← hL] at key
  exact key

/-- C12. Move up by one. For every duplicate-free list and every row `r` with
`1 <= r < size`, `move([r], up = true)` yields the list with the videos of rows
`r - 1` and `r` swapped and every other row unchanged, so the moved video is at
row `r - 1`; and if that video was the active video before the call, the
`ActiveTrackRole` of the rows of the list is true at row `r - 1` and false at
every other row afterwards. -/
theorem move_up_one (title : Video → String) (s : PlaylistModel) (r : Nat)
    (hnd : s.videos.Nodup) (h1 : 1 ≤ r) (hr : r < s.videos.length) :
    (move s [(r : Int)] true).videos =
        s.videos.take (r - 1) ++ s.videos[r] :: s.videos[r - 1] :: s.videos.drop (r + 1) ∧
      rowForVideo (move s [(r : Int)] true) s.videos[r] = ((r - 1 : Nat) : Int) ∧
      (s.m_activeVideo = s.videos[r] → ∀ row : Nat, row < s.videos.length →
        data title (move s [(r : Int)] true) (row : Int) .ActiveTrackRole =
          .bool (decide (row = r - 1))) := by
  obtain ⟨k, rfl⟩ : ∃ k, r = k + 1 := ⟨r - 1, by omega⟩
  simp only [Nat.add_sub_cancel]
  have hsplit := split_at_rows s.videos k hr
  have hlen : (s.videos.take k).length = k := by
    rw [List.length_take]
    omega
  obtain ⟨hv, ha⟩ := move_up_split s (s.videos.take k) (s.videos.drop (k + 2))
    s.videos[k] s.videos[k + 1] k hlen hsplit hnd
  have hperm : List.Perm (move s [((k + 1 : Nat) : Int)] true).videos s.videos := by
    rw [hv]
    conv_rhs => rw [hsplit]
    exact List.Perm.append_left _ (List.Perm.swap _ _ _)
  have hnd2 : (move s [((k + 1 : Nat) : Int)] true).videos.Nodup := hperm.nodup_iff.2 hnd
  have hlen2 : (move s [((k + 1 : Nat) : Int)] true).videos.length = s.videos.length :=
    hperm.length_eq
  have hk : k < (move s [((k + 1 : Nat) : Int)] true).videos.length := by omega
  have hat : (move s [((k + 1 : Nat) : Int)] true).videos[k] = s.videos[k + 1] := by
    simp only [hv]
    rw [List.getElem_append_right (by omega)]
    simp [hlen]
  refine ⟨hv, ?_, ?_⟩
  · unfold rowForVideo
    rw [← hat]
    exact indexOf_getElem_nodup _ k hk hnd2
  · intro hact row hrow
    have hrow2 : row < (move s [((k + 1 : Nat) : Int)] true).videos.length := by omega
    rw [data_activeTrack title _ row hrow2, ha, hact, ← hat]
    congr 1
    exact decide_eq_decide.2 (hnd2.getElem_inj_iff)

/-- C12, at the list 1, 2, 3 with video 3 active at row 2: after the move the
list is 1, 3, 2 and row 1 is the active one. -/
theorem move_up_one_witness :
    (move playingState [((2 : Nat) : Int)] true).videos =
        playingState.videos.take (2 - 1) ++
          playingState.videos[2] :: playingState.videos[2 - 1] ::
            playingState.videos.drop (2 + 1) ∧
      rowForVideo (move playingState [((2 : Nat) : Int)] true) playingState.videos[2] =
        ((2 - 1 : Nat) : Int) ∧
      (playingState.m_activeVideo = playingState.videos[2] →
        ∀ row : Nat, row < playingState.videos.length →
          data (fun _ => "") (move playingState [((2 : Nat) : Int)] true) (row : Int)
            .ActiveTrackRole = .bool (decide (row = 2 - 1))) :=
  move_up_one (fun _ => "") playingState 2 (by decide) (by decide) (by decide)

/-- The second loop of `move` never writes the active video or the recorded
active row. -/
theorem moveLoop_frame (up : Bool) (mod : Int) (vs : List Video) :
    ∀ (s : PlaylistModel) (endRow : Int),
      (moveLoop up mod vs (s, endRow)).1.m_activeVideo = s.m_activeVideo ∧
      (moveLoop up mod vs (s, endRow)).1.m_activeRow = s.m_activeRow := by
  induction vs with
  | nil => intro s endRow; exact ⟨rfl, rfl⟩
  | cons v vs ih =>
    intro s endRow
    simp only [moveLoop]
    split
    · exact ih s _
    · refine ⟨(ih _ _).1.trans ?_, (ih _ _).2.trans ?_⟩
      · exact (removeRows_frame s (rowForVideo s v) 1).1
      · exact (removeRows_frame s (rowForVideo s v) 1).2.1

/-- C13 fails on the code. `move` never writes `m_activeRow`, whatever the
rows and the direction. With videos 1, 2, 3 and video 3 active at row 2,
moving row 2 up gives 1, 3, 2 with video 3 at row 1, while the recorded active
row is still 2; `nextRow()` and `previousRow()` then answer from row 2, and
row 1, the row of the active video, is not the recorded one. -/
theorem move_leaves_active_row_stale :
    (∀ (s : PlaylistModel) (indexes : List Int) (up : Bool),
      (move s indexes up).m_activeRow = s.m_activeRow ∧
      (move s indexes up).m_activeVideo = s.m_activeVideo) ∧
    (move playingState [2] true).videos = [1, 3, 2] ∧
    (move playingState [2] true).m_activeVideo = 3 ∧
    rowForVideo (move playingState [2] true) 3 = 1 ∧
    (move playingState [2] true).m_activeRow = 2 ∧
    nextRow (move playingState [2] true) = -1 ∧
    previousRow (move playingState [2] true) = 1 ∧
    data (fun _ => "") (move playingState [2] true) 1 .ActiveTrackRole = .bool true ∧
    data (fun _ => "") (move playingState [2] true) 2 .ActiveTrackRole = .bool false := by
  refine ⟨?_, rfl, rfl, rfl, rfl, rfl, rfl, rfl, rfl⟩
  intro s indexes up
  have h := moveLoop_frame up (if up then -1 else 1) (movedVideos s indexes) s
    (if up then -1 else rowCount s - 1)
  exact ⟨h.2, h.1⟩

/-- C18 fails on the code. `move` takes `rowCount() - 1` for the lower
boundary, which is the last row of the list, not the row after it, while a
search runs on a non-empty list. With videos 1, 2, 3 and a fetch in flight,
moving row 1 down leaves the list unchanged, where the claim has 1, 3, 2;
at rest the same call gives 1, 3, 2. -/
theorem move_down_skips_while_searching :
    rowCount playingAndFetching - 1 = 2 ∧
    (move playingAndFetching [1] false).videos = [1, 2, 3] ∧
    (move playingState [1] false).videos = [1, 3, 2] ∧
    (move playingState [2] false).videos = [1, 2, 3] ∧
    (move playingState [0] true).videos = [1, 2, 3] :=
  ⟨rfl, rfl, rfl, rfl, rfl⟩

/-- C19 fails on the code. `searchFinished` and `searchError` emit
`dataChanged` for row `maxItems`, whatever the number of videos: with three
videos the message row is row 3 and the notification names row 10. -/
theorem status_notification_names_row_ten :
    size threeArrived.videos = 3 ∧
    data (fun _ => "") threeArrived 3 .ItemTypeRole = .itemTypeShowMore ∧
    (∃ s1, searchFinished threeArrived 3 = .ok s1 ∧ s1.log = [Effect.dataChanged 10 10]) ∧
    (searchError threeArrived "network down").log = [Effect.dataChanged 10 10] ∧
    (∀ (s : PlaylistModel) (message : String),
      (searchError s message).log = s.log ++ [Effect.dataChanged maxItems maxItems]) :=
  ⟨rfl, rfl, ⟨_, rfl, rfl⟩, rfl, fun _ _ => rfl⟩

/-- C16. `abortSearch` is idempotent. For every state with a video source
bound and a list holding no video twice, `abortSearch` returns with an empty
list and `searching = false`; a second call returns with every member
variable as the first call left it and deletes nothing, so that the videos
deleted over both calls are those of the original list, each exactly once. -/
theorem abortSearch_idempotent (s : PlaylistModel) (p : VideoSource)
    (hp : s.videoSource = some p) (hnd : s.videos.Nodup) :
    ∃ s1 s2 d, abortSearch s = .ok s1 ∧ abortSearch s1 = .ok s2 ∧
      s1.videos = [] ∧ s1.searching = false ∧ members s2 = members s1 ∧
      destroyed s1.log = destroyed s.log ++ d ∧
      destroyed s2.log = destroyed s1.log ∧
      (∀ x, d.count x = if x ∈ s.videos then 1 else 0) := by
  have h1 : abortSearch s = .ok { s with
      videos := []
      searching := false
      log := s.log ++ deleteAll s.videos ++ [Effect.modelReset, Effect.abort p.id] } := by
    simp [abortSearch, emit, hp]
  have h2 : abortSearch { s with
      videos := []
      searching := false
      log := s.log ++ deleteAll s.videos ++ [Effect.modelReset, Effect.abort p.id] } =
      .ok { s with
        videos := []
        searching := false
        log := s.log ++ deleteAll s.videos ++ [Effect.modelReset, Effect.abort p.id] ++
          [Effect.modelReset, Effect.abort p.id] } := by
    simp [abortSearch, emit, hp, deleteAll]
  refine ⟨_, _, s.videos, h1, h2, rfl, rfl, rfl, ?_, ?_, ?_⟩
  · simp [destroyed_append, destroyed_deleteAll, destroyed]
  · simp [destroyed_append, destroyed_deleteAll, destroyed]
  · intro x
    by_cases hx : x ∈ s.videos
    · rw [if_pos hx]
      exact List.count_eq_one_of_mem hnd hx
    · rw [if_neg hx]
      exact List.count_eq_zero_of_not_mem hx

/-- C16, at three videos on `exampleSource`. -/
theorem abortSearch_idempotent_witness :
    ∃ s1 s2 d, abortSearch playingState = .ok s1 ∧ abortSearch s1 = .ok s2 ∧
      s1.videos = [] ∧ s1.searching = false ∧ members s2 = members s1 ∧
      destroyed s1.log = destroyed playingState.log ++ d ∧
      destroyed s2.log = destroyed s1.log ∧
      (∀ x, d.count x = if x ∈ playingState.videos then 1 else 0) :=
  abortSearch_idempotent playingState exampleSource rfl (by decide)

/-- C17, as stated, fails at the initial state: `setVideoSource(0)` reaches
`videoSource->loadVideos` in `searchMore` with a null `videoSource`. -/
theorem setVideoSource_null_faults :
    setVideoSource init none = .error Fault.nullPointer :=
  rfl

/-- C17, amended. `setVideoSource` returns normally for every state and every
video source that is not null. With a null video source it returns normally
exactly from the states that are searching, where `searchMore` returns at its
guard; from a state that is not searching it dereferences the null pointer. -/
theorem setVideoSource_null_only_while_searching :
    (∀ (s : PlaylistModel) (p : VideoSource), ∃ s1, setVideoSource s (some p) = .ok s1) ∧
    (∀ s : PlaylistModel, s.searching = true → ∃ s1, setVideoSource s none = .ok s1) ∧
    (∀ s : PlaylistModel, s.searching = false →
      setVideoSource s none = .error Fault.nullPointer) := by
  refine ⟨?_, ?_, ?_⟩
  · intro s p
    cases hs : s.searching
    · exact ⟨_, setVideoSource_ok s p hs⟩
    · exact ⟨_, setVideoSource_searching s (some p) hs⟩
  · intro s hs
    exact ⟨_, setVideoSource_searching s none hs⟩
  · intro s hs
    simp [setVideoSource, searchMoreDefault, searchMore, emit, hs]

/-- C17 amended, at a searching state, and at the initial state. -/
theorem setVideoSource_null_only_while_searching_witness :
    (∃ s1, setVideoSource staleState none = .ok s1) ∧
    setVideoSource init none = .error Fault.nullPointer :=
  ⟨setVideoSource_null_only_while_searching.2.1 staleState rfl,
   setVideoSource_null_only_while_searching.2.2 init rfl⟩

/-- The drop loop on the list: each video in turn is erased and inserted at
the target row. -/
theorem dropLoop_videos (beginRow : Int) (xs : List Video) :
    ∀ s : PlaylistModel, (xs.foldl (dropVideo beginRow) s).videos =
      xs.foldl (fun l v => insert (l.erase v) beginRow v) s.videos := by
  induction xs with
  | nil => intro s; rfl
  | cons x xs ih =>
    intro s
    simp only [List.foldl_cons]
    rw [ih, dropVideo_videos]

/-- The drop loop leaves the active video alone. -/
theorem dropLoop_activeVideo (beginRow : Int) (xs : List Video) :
    ∀ s : PlaylistModel, (xs.foldl (dropVideo beginRow) s).m_activeVideo = s.m_activeVideo := by
  induction xs with
  | nil => intro s; rfl
  | cons x xs ih =>
    intro s
    simp only [List.foldl_cons]
    rw [ih, dropVideo_activeVideo]

/-- A drop that is not ignored, has the video format, lands on column 0 or
none, and carries a `VideoMimeData` is accepted: it runs the loop at the
target row, which is `row` unless `row` is `-1`, and `rowCount()` when there is
neither row nor parent; then the recorded active row is looked up anew. -/
theorem dropMimeData_accepted (s : PlaylistModel) (data : MimeData) (action : DropAction)
    (row column : Int) (parent : Option Int) (dropped : List Video)
    (hact : action ≠ .IgnoreAction) (hfmt : data.hasFormat = true) (hcol : column ≤ 0)
    (hvid : data.videos = some dropped) :
    ∃ beginRow : Int,
      (row ≠ -1 → beginRow = row) ∧ (row = -1 → parent = none → beginRow = rowCount s) ∧
      (dropMimeData s data action row column parent).1 = true ∧
      (dropMimeData s data action row column parent).2.videos =
        dropped.foldl (fun l v => insert (l.erase v) beginRow v) s.videos ∧
      (dropMimeData s data action row column parent).2.m_activeVideo = s.m_activeVideo ∧
      (dropMimeData s data action row column parent).2.m_activeRow =
        indexOf (dropMimeData s data action row column parent).2.videos s.m_activeVideo := by
  have hcol2 : ¬ (column > 0) := not_lt.2 hcol
  refine ⟨if row ≠ -1 then row else match parent with
    | some r => r
    | none => rowCount s, ?_, ?_, ?_⟩
  · intro h
    rw [if_pos h]
  · intro h hp
    rw [if_neg (not_not.2 h), hp]
  · unfold dropMimeData
    rw [if_neg hact]
    simp only [hfmt, Bool.not_true, Bool.false_eq_true, if_false, if_neg hcol2, hvid, emit,
      dropLoop_videos, dropLoop_activeVideo, and_self]

/-- The videos of the list after one erase-and-insert round. -/
theorem mem_erase_insert (l : List Video) (b : Int) (v x : Video) :
    x ∈ insert (l.erase v) b v ↔ x = v ∨ x ∈ l := by
  rw [(insert_perm (l.erase v) b v).mem_iff, List.mem_cons]
  by_cases hx : x = v
  · simp [hx]
  · simp [hx, List.mem_erase_of_ne hx]

/-- The videos of the list after the drop loop. -/
theorem mem_dropList (b : Int) (xs : List Video) :
    ∀ (l : List Video) (x : Video),
      x ∈ xs.foldl (fun l v => insert (l.erase v) b v) l ↔ x ∈ xs ∨ x ∈ l := by
  induction xs with
  | nil => intro l x; simp
  | cons v vs ih =>
    intro l x
    simp only [List.foldl_cons, ih, mem_erase_insert, List.mem_cons]
    constructor
    · rintro (h | h | h)
      · exact Or.inl (Or.inr h)
      · exact Or.inl (Or.inl h)
      · exact Or.inr h
    · rintro ((h | h) | h)
      · exact Or.inr (Or.inl h)
      · exact Or.inl h
      · exact Or.inr (Or.inr h)

/-- The drop loop over videos of the list permutes the list. -/
theorem dropList_perm (b : Int) (xs : List Video) :
    ∀ l : List Video, (∀ x ∈ xs, x ∈ l) →
      List.Perm (xs.foldl (fun l v => insert (l.erase v) b v) l) l := by
  induction xs with
  | nil => intro l _; exact List.Perm.refl l
  | cons v vs ih =>
    intro l h
    have hv : v ∈ l := h v (List.mem_cons_self v vs)
    have hstep : List.Perm (insert (l.erase v) b v) l :=
      (insert_perm _ _ _).trans (List.perm_cons_erase hv).symm
    simp only [List.foldl_cons]
    refine (ih _ ?_).trans hstep
    intro x hx
    exact hstep.mem_iff.2 (h x (List.mem_cons_of_mem v hx))

/-- C15. An accepted drop (one that is not ignored, has the video format,
lands on column 0 or none and carries a `VideoMimeData`; any videos, any
target row) leaves the active video as it was and records as active row the
index of the active video in the list after the drop. When the active video
was in the list before the drop it is still there, at the recorded row. When
there is no active video (null pointer) and the null pointer is neither in the
list nor among the dropped videos, the recorded row is `-1`. -/
theorem dropMimeData_recomputes_active_row (s : PlaylistModel) (data : MimeData)
    (action : DropAction) (row column : Int) (parent : Option Int) (dropped : List Video)
    (hact : action ≠ .IgnoreAction) (hfmt : data.hasFormat = true) (hcol : column ≤ 0)
    (hvid : data.videos = some dropped) :
    (dropMimeData s data action row column parent).1 = true ∧
    (dropMimeData s data action row column parent).2.m_activeVideo = s.m_activeVideo ∧
    (dropMimeData s data action row column parent).2.m_activeRow =
      rowForVideo (dropMimeData s data action row column parent).2 s.m_activeVideo ∧
    (s.m_activeVideo ∈ s.videos → ∃ i : Nat,
      (dropMimeData s data action row column parent).2.m_activeRow = (i : Int) ∧
      (dropMimeData s data action row column parent).2.videos[i]? = some s.m_activeVideo) ∧
    (s.m_activeVideo = 0 → 0 ∉ s.videos → 0 ∉ dropped →
      (dropMimeData s data action row column parent).2.m_activeRow = -1) := by
  obtain ⟨b, _, _, hret, hv, ha, hr⟩ :=
    dropMimeData_accepted s data action row column parent dropped hact hfmt hcol hvid
  refine ⟨hret, ha, hr, ?_, ?_⟩
  · intro hmem
    have hmem2 : s.m_activeVideo ∈ (dropMimeData s data action row column parent).2.videos := by
      rw [hv]
      exact (mem_dropList b dropped s.videos _).2 (Or.inr hmem)
    refine ⟨List.indexOf s.m_activeVideo (dropMimeData s data action row column parent).2.videos,
      ?_, ?_⟩
    · rw [hr]
      exact indexOf_mem _ _ hmem2
    · rw [← List.get?_eq_getElem?]
      exact List.indexOf_get? hmem2
  · intro h0 hl hd
    rw [hr, h0]
    apply (indexOf_spec _ _).1.2
    rw [hv]
    intro hc
    rcases (mem_dropList b dropped s.videos 0).1 hc with h | h
    · exact hd h
    · exact hl h

/-- C15, at the list 1, 2, 3 with video 3 active, dropping video 3 on row 0. -/
theorem dropMimeData_recomputes_active_row_witness :
    (dropMimeData playingState ⟨true, some [3]⟩ .MoveAction 0 0 none).1 = true ∧
    (dropMimeData playingState ⟨true, some [3]⟩ .MoveAction 0 0 none).2.m_activeVideo =
      playingState.m_activeVideo ∧
    (dropMimeData playingState ⟨true, some [3]⟩ .MoveAction 0 0 none).2.m_activeRow =
      rowForVideo (dropMimeData playingState ⟨true, some [3]⟩ .MoveAction 0 0 none).2
        playingState.m_activeVideo ∧
    (playingState.m_activeVideo ∈ playingState.videos → ∃ i : Nat,
      (dropMimeData playingState ⟨true, some [3]⟩ .MoveAction 0 0 none).2.m_activeRow = (i : Int) ∧
      (dropMimeData playingState ⟨true, some [3]⟩ .MoveAction 0 0 none).2.videos[i]? =
        some playingState.m_activeVideo) ∧
    (playingState.m_activeVideo = 0 → 0 ∉ playingState.videos → 0 ∉ [3] →
      (dropMimeData playingState ⟨true, some [3]⟩ .MoveAction 0 0 none).2.m_activeRow = -1) :=
  dropMimeData_recomputes_active_row playingState ⟨true, some [3]⟩ .MoveAction 0 0 none [3]
    (by decide) rfl (by decide) rfl

/-- For non-negative rows the first loop of `move` collects videos of the
list only. -/
theorem movedVideos_mem (s : PlaylistModel) (rows : List Nat) :
    ∀ v ∈ movedVideos s (rows.map Int.ofNat), v ∈ s.videos := by
  induction rows with
  | nil => intro v hv; cases hv
  | cons r rows ih =>
    intro v hv
    simp only [List.map_cons, movedVideos] at hv
    by_cases hr : Int.ofNat r ≥ size s.videos
    · rw [if_pos hr] at hv
      exact ih v hv
    · rw [if_neg hr] at hv
      have hlt : r < s.videos.length := by
        unfold size at hr
        by_contra hc
        exact hr (by simp only [Int.ofNat_eq_coe]; exact_mod_cast Nat.le_of_not_lt hc)
      rcases List.mem_cons.1 hv with h | h
      · rw [h]
        have := videoAt_row s r hlt
        simp only [Int.ofNat_eq_coe]
        rw [this]
        exact List.getElem_mem hlt
      · exact ih v h

/-- The second loop of `move` over videos of the list permutes the list. -/
theorem moveLoop_perm (up : Bool) (mod : Int) (vs : List Video) :
    ∀ (s : PlaylistModel) (endRow : Int), (∀ v ∈ vs, v ∈ s.videos) →
      List.Perm (moveLoop up mod vs (s, endRow)).1.videos s.videos := by
  induction vs with
  | nil => intro s endRow _; exact List.Perm.refl _
  | cons v vs ih =>
    intro s endRow h
    have hv : v ∈ s.videos := h v (List.mem_cons_self v vs)
    simp only [moveLoop]
    split
    · exact ih s _ (fun w hw => h w (List.mem_cons_of_mem v hw))
    · have hstep : List.Perm
          (insert (removeRows s (rowForVideo s v) 1).videos
            (if up = true then rowForVideo s v - 1 else rowForVideo s v + 1) v) s.videos := by
        rw [removeRows_one_videos]
        unfold rowForVideo
        rw [removeAt_indexOf]
        exact (insert_perm _ _ _).trans (List.perm_cons_erase hv).symm
      refine (ih _ _ ?_).trans hstep
      intro w hw
      exact hstep.mem_iff.2 (h w (List.mem_cons_of_mem v hw))

/-- C20, as stated, fails for a negative row: for the row `-1` of an invalid
index `videoAt` answers the null pointer, which `move` then inserts at the
front of the list; the list 1, 2 becomes 0, 1, 2. -/
theorem move_negative_row_inserts_null :
    (move restingState [-1] true).videos = [0, 1, 2] ∧
    ¬ List.Perm (move restingState [-1] true).videos restingState.videos := by
  refine ⟨rfl, ?_⟩
  intro h
  have := h.length_eq
  revert this
  decide

/-- C20, amended. For every list, every list of non-negative rows and either
direction, `move` yields a permutation of the list. For every drop whose
videos, if it carries any, are all in the list, and every target row, the
default `rowCount()` included, `dropMimeData` yields a permutation of the
list. Hence both keep the number of videos, and keep a duplicate-free list
duplicate-free. -/
theorem reordering_permutes :
    (∀ (s : PlaylistModel) (rows : List Nat) (up : Bool),
      List.Perm (move s (rows.map Int.ofNat) up).videos s.videos ∧
      (move s (rows.map Int.ofNat) up).videos.length = s.videos.length ∧
      (s.videos.Nodup → (move s (rows.map Int.ofNat) up).videos.Nodup)) ∧
    (∀ (s : PlaylistModel) (data : MimeData) (action : DropAction) (row column : Int)
      (parent : Option Int),
      (∀ dropped, data.videos = some dropped → ∀ x ∈ dropped, x ∈ s.videos) →
      List.Perm (dropMimeData s data action row column parent).2.videos s.videos ∧
      (dropMimeData s data action row column parent).2.videos.length = s.videos.length ∧
      (s.videos.Nodup → (dropMimeData s data action row column parent).2.videos.Nodup)) := by
  constructor
  · intro s rows up
    have hperm : List.Perm (move s (rows.map Int.ofNat) up).videos s.videos := by
      unfold move
      simp only [emit]
      exact moveLoop_perm up _ _ s _ (movedVideos_mem s rows)
    exact ⟨hperm, hperm.length_eq, fun hnd => hperm.nodup_iff.2 hnd⟩
  · intro s data action row column parent hmem
    have hperm : List.Perm (dropMimeData s data action row column parent).2.videos s.videos := by
      by_cases hact : action = .IgnoreAction
      · simp only [dropMimeData, if_pos hact]
        exact List.Perm.refl _
      · cases hfmt : data.hasFormat
        · simp only [dropMimeData, if_neg hact, hfmt, Bool.not_false, if_true]
          exact List.Perm.refl _
        · by_cases hcol : column > 0
          · simp only [dropMimeData, if_neg hact, hfmt, Bool.not_true, Bool.false_eq_true,
              if_false, if_pos hcol]
            exact List.Perm.refl _
          · cases hvid : data.videos with
            | none =>
              simp only [dropMimeData, if_neg hact, hfmt, Bool.not_true, Bool.false_eq_true,
                if_false, if_neg hcol, hvid]
              exact List.Perm.refl _
            | some dropped =>
              obtain ⟨b, _, _, _, hv, _, _⟩ :=
                dropMimeData_accepted s data action row column parent dropped hact hfmt
                  (not_lt.1 hcol) hvid
              rw [hv]
              exact dropList_perm b dropped s.videos (hmem dropped hvid)
    exact ⟨hperm, hperm.length_eq, fun hnd => hperm.nodup_iff.2 hnd⟩

/-- C20 amended, at a drop of the videos 1 and 3 of the list 1, 2, 3 with no
row and no parent, where the target row is `rowCount()`. -/
theorem reordering_permutes_witness :
    List.Perm (dropMimeData playingState ⟨true, some [1, 3]⟩ .MoveAction (-1) 0 none).2.videos
        playingState.videos ∧
      (dropMimeData playingState ⟨true, some [1, 3]⟩ .MoveAction (-1) 0 none).2.videos.length =
        playingState.videos.length ∧
      (playingState.videos.Nodup →
        (dropMimeData playingState ⟨true, some [1, 3]⟩ .MoveAction (-1) 0 none).2.videos.Nodup) :=
  reordering_permutes.2 playingState ⟨true, some [1, 3]⟩ .MoveAction (-1) 0 none
    (by
      intro dropped h x hx
      have hd : dropped = [1, 3] := (Option.some.inj h).symm
      subst hd
      revert x
      decide)

/-- The drop loop at the row just after a front part `P`, over distinct videos
that all stand behind the block `ys` already dropped: each video lands in
front of the block, so the block grows in reverse order of receipt. -/
theorem dropList_reverse (P : List Video) (zs : List Video) :
    ∀ (ys R : List Video), (P ++ ys ++ R).Nodup → zs.Nodup → (∀ z ∈ zs, z ∈ R) →
      zs.foldl (fun l v => insert (l.erase v) (P.length : Int) v) (P ++ ys ++ R) =
        P ++ zs.reverse ++ ys ++ R.filter (fun x => decide (x ∉ zs)) := by
  induction zs with
  | nil => intro ys R _ _ _; simp
  | cons z zs ih =>
    intro ys R hnd hzs hmem
    have hzR : z ∈ R := hmem z (List.mem_cons_self z zs)
    have hzfront : z ∉ P ++ ys := fun hc => (List.nodup_append.1 hnd).2.2 hc hzR
    have hRnd : R.Nodup := (List.nodup_append.1 hnd).2.1
    have hzzs : z ∉ zs := (List.nodup_cons.1 hzs).1
    have hstep : insert ((P ++ ys ++ R).erase z) (P.length : Int) z =
        P ++ (z :: ys) ++ R.erase z := by
      rw [List.erase_append_right _ hzfront, List.append_assoc, insert_length_append]
      simp
    have hnd2 : (P ++ (z :: ys) ++ R.erase z).Nodup := by
      rw [← hstep]
      have hin : z ∈ P ++ ys ++ R := List.mem_append_right _ hzR
      exact ((insert_perm _ _ _).trans (List.perm_cons_erase hin).symm).nodup_iff.2 hnd
    have hmem2 : ∀ w ∈ zs, w ∈ R.erase z := by
      intro w hw
      have hne : w ≠ z := fun hc => hzzs (hc ▸ hw)
      exact (List.mem_erase_of_ne hne).2 (hmem w (List.mem_cons_of_mem z hw))
    have hfilter : (R.erase z).filter (fun x => decide (x ∉ zs)) =
        R.filter (fun x => decide (x ∉ z :: zs)) := by
      rw [hRnd.erase_eq_filter, List.filter_filter]
      apply List.filter_congr
      intro x _
      by_cases h1 : x = z <;> by_cases h2 : x ∈ zs <;> simp [h1, h2]
    simp only [List.foldl_cons]
    rw [hstep, ih (z :: ys) (R.erase z) hnd2 (List.nodup_cons.1 hzs).2 hmem2, hfilter]
    simp

/-- A value standing right behind a front part that lacks it is found at the
length of the front part. -/
theorem indexOf_append_new (pre post : List Video) (x : Video) (h : x ∉ pre) :
    indexOf (pre ++ x :: post) x = (pre.length : Int) := by
  induction pre with
  | nil => simp [indexOf]
  | cons p ps ih =>
    have hne : p ≠ x := fun hc => h (hc ▸ List.mem_cons_self p ps)
    have hps : x ∉ ps := fun hc => h (List.mem_cons_of_mem p hc)
    have hnot : ¬ ((ps.length : Int) = -1) := by omega
    show indexOf (p :: (ps ++ x :: post)) x = _
    rw [indexOf, if_neg hne]
    simp only [ih hps, if_neg hnot, List.length_cons]
    push_cast
    rfl

/-- A new value inserted at a non-negative row is found at that row, or at the
end of the list when the row lies beyond it. -/
theorem indexOf_insert_new (l : List Video) (i : Nat) (x : Video) (h : x ∉ l) :
    indexOf (insert l (i : Int) x) x = (min i l.length : Nat) := by
  unfold insert size
  by_cases h0 : (i : Int) ≤ 0
  · have hi : i = 0 := by omega
    subst hi
    simp [indexOf]
  · rw [if_neg h0]
    by_cases h1 : ((l.length : Nat) : Int) ≤ (i : Int)
    · have hle : l.length ≤ i := by exact_mod_cast h1
      rw [if_pos h1, indexOf_append_new l [] x h, Nat.min_eq_right hle]
    · have hlt : i < l.length := by
        by_contra hc
        exact h1 (by exact_mod_cast Nat.le_of_not_lt hc)
      rw [if_neg h1, Int.toNat_ofNat,
        indexOf_append_new (l.take i) (l.drop i) x (fun hc => h (List.mem_of_mem_take hc)),
        List.length_take]

/-- An insertion at a non-negative row splits the list at that row; a row
past the end splits it at the end. -/
theorem insert_nat (l : List Video) (a : Nat) (z : Video) :
    insert l (a : Int) z = l.take a ++ z :: l.drop a := by
  unfold insert size
  by_cases h0 : (a : Int) ≤ 0
  · have ha : a = 0 := by omega
    subst ha
    simp
  · rw [if_neg h0]
    by_cases h1 : ((l.length : Nat) : Int) ≤ (a : Int)
    · have hle : l.length ≤ a := by exact_mod_cast h1
      rw [if_pos h1, List.take_of_length_le hle, List.drop_of_length_le hle]
    · rw [if_neg h1, Int.toNat_ofNat]

/-- An insertion whose row falls on a block `B` of the list, or right behind
it, lands inside the block. -/
theorem insert_into_block (U B V : List Video) (a d : Nat) (z : Video)
    (hd : d ≤ B.length)
    (ha : a = U.length + d ∨ (V = [] ∧ d = B.length ∧ U.length + d ≤ a)) :
    insert (U ++ B ++ V) (a : Int) z = U ++ (B.take d ++ z :: B.drop d) ++ V := by
  rw [insert_nat]
  rcases ha with ha | ⟨hV, hdB, hle⟩
  · subst ha
    rw [List.append_assoc, List.take_append, List.drop_append,
      List.take_append_of_le_length hd, List.drop_append_of_le_length hd]
    simp
  · subst hV
    subst hdB
    have hlen : (U ++ B ++ []).length ≤ a := by
      simp only [List.append_nil, List.length_append]
      exact hle
    rw [List.take_of_length_le hlen, List.drop_of_length_le hlen]
    simp

/-- One round of the drop loop at a non-negative row, on a list in which the
videos dropped so far form a block `B` holding that row (or ending the list
before it): the next video, taken from in front of the block or from behind
it, lands inside the block or at one of its ends, and the videos around the
block keep their order. -/
theorem dropStep_block (a : Nat) (U B V : List Video) (z : Video)
    (hnd : (U ++ B ++ V).Nodup) (hz : z ∈ U ++ V) (h1 : U.length ≤ a)
    (h2 : a + 1 ≤ U.length + B.length ∨ V = []) :
    ∃ U1 B1 V1, insert ((U ++ B ++ V).erase z) (a : Int) z = U1 ++ B1 ++ V1 ∧
      List.Perm B1 (z :: B) ∧ U1 ++ V1 = (U ++ V).erase z ∧ U1.length ≤ a ∧
      (a + 1 ≤ U1.length + B1.length ∨ V1 = []) := by
  have hperm : ∀ d, List.Perm (B.take d ++ z :: B.drop d) (z :: B) := by
    intro d
    have h := @List.perm_middle _ z (B.take d) (B.drop d)
    rw [List.take_append_drop] at h
    exact h
  have hlenB : ∀ d, d ≤ B.length → (B.take d ++ z :: B.drop d).length = B.length + 1 := by
    intro d _
    rw [(hperm d).length_eq]
    simp
  rcases List.mem_append.1 hz with hU | hV
  · have hUB : z ∈ U ++ B := List.mem_append_left _ hU
    have herase : (U ++ B ++ V).erase z = U.erase z ++ B ++ V := by
      rw [List.erase_append_left _ hUB, List.erase_append_left _ hU]
    have hlen : (U.erase z).length = U.length - 1 := List.length_erase_of_mem hU
    have hpos : 0 < U.length := List.length_pos_of_mem hU
    have hUV : U.erase z ++ V = (U ++ V).erase z := (List.erase_append_left _ hU).symm
    by_cases hle : a + 1 ≤ U.length + B.length
    · have hd : a + 1 - U.length ≤ B.length := by omega
      refine ⟨U.erase z, B.take (a + 1 - U.length) ++ z :: B.drop (a + 1 - U.length), V,
        ?_, hperm _, hUV, by omega, Or.inl ?_⟩
      · rw [herase]
        exact insert_into_block _ _ _ _ _ z hd (Or.inl (by omega))
      · rw [hlenB _ hd]
        omega
    · have hVnil : V = [] := by
        rcases h2 with h | h
        · exact absurd h hle
        · exact h
      refine ⟨U.erase z, B.take B.length ++ z :: B.drop B.length, V,
        ?_, hperm _, hUV, by omega, Or.inr hVnil⟩
      rw [herase]
      exact insert_into_block _ _ _ _ _ z (Nat.le_refl _) (Or.inr ⟨hVnil, rfl, by omega⟩)
  · have hnotUB : z ∉ U ++ B := fun hc => (List.nodup_append.1 hnd).2.2 hc hV
    have hnotU : z ∉ U := fun hc => hnotUB (List.mem_append_left _ hc)
    have herase : (U ++ B ++ V).erase z = U ++ B ++ V.erase z :=
      List.erase_append_right _ hnotUB
    have hUV : U ++ V.erase z = (U ++ V).erase z := (List.erase_append_right _ hnotU).symm
    have hle : a + 1 ≤ U.length + B.length := by
      rcases h2 with h | h
      · exact h
      · rw [h] at hV
        cases hV
    have hd : a - U.length ≤ B.length := by omega
    refine ⟨U, B.take (a - U.length) ++ z :: B.drop (a - U.length), V.erase z,
      ?_, hperm _, hUV, h1, Or.inl ?_⟩
    · rw [herase]
      exact insert_into_block _ _ _ _ _ z hd (Or.inl (by omega))
    · rw [hlenB _ hd]
      omega

/-- Erasing one value and then filtering out others, in a duplicate-free
list, filters out all of them. -/
theorem erase_filter_not_mem (l : List Video) (z : Video) (zs : List Video) (hnd : l.Nodup) :
    (l.erase z).filter (fun x => decide (x ∉ zs)) =
      l.filter (fun x => decide (x ∉ z :: zs)) := by
  rw [hnd.erase_eq_filter, List.filter_filter]
  apply List.filter_congr
  intro x _
  by_cases h1 : x = z <;> by_cases h2 : x ∈ zs <;> simp [h1, h2]

/-- The drop loop at a non-negative row, started on a list in which the videos
dropped so far form a block holding that row: the block takes in every further
video, and the videos around it keep their order. -/
theorem dropList_block (a : Nat) (zs : List Video) :
    ∀ (U B V : List Video), (U ++ B ++ V).Nodup → zs.Nodup → (∀ z ∈ zs, z ∈ U ++ V) →
      U.length ≤ a → (a + 1 ≤ U.length + B.length ∨ V = []) →
      ∃ U1 B1 V1,
        zs.foldl (fun l v => insert (l.erase v) (a : Int) v) (U ++ B ++ V) = U1 ++ B1 ++ V1 ∧
        List.Perm B1 (B ++ zs) ∧
        U1 ++ V1 = (U ++ V).filter (fun x => decide (x ∉ zs)) ∧
        U1.length ≤ a ∧ (a + 1 ≤ U1.length + B1.length ∨ V1 = []) := by
  induction zs with
  | nil =>
    intro U B V _ _ _ h1 h2
    exact ⟨U, B, V, rfl, by simp, by simp, h1, h2⟩
  | cons z zs ih =>
    intro U B V hnd hzs hmem h1 h2
    have hz : z ∈ U ++ V := hmem z (List.mem_cons_self z zs)
    have hzzs : z ∉ zs := (List.nodup_cons.1 hzs).1
    obtain ⟨U1, B1, V1, hstep, hB1, hUV1, hU1, hinv1⟩ := dropStep_block a U B V z hnd hz h1 h2
    have hin : z ∈ U ++ B ++ V := by
      rcases List.mem_append.1 hz with h | h
      · exact List.mem_append_left _ (List.mem_append_left _ h)
      · exact List.mem_append_right _ h
    have hnd1 : (U1 ++ B1 ++ V1).Nodup := by
      rw [← hstep]
      exact ((insert_perm _ _ _).trans (List.perm_cons_erase hin).symm).nodup_iff.2 hnd
    have hUVnd : (U ++ V).Nodup :=
      hnd.sublist (List.Sublist.append (List.sublist_append_left U B) (List.Sublist.refl V))
    have hmem1 : ∀ w ∈ zs, w ∈ U1 ++ V1 := by
      intro w hw
      rw [hUV1]
      have hne : w ≠ z := fun hc => hzzs (hc ▸ hw)
      exact (List.mem_erase_of_ne hne).2 (hmem w (List.mem_cons_of_mem z hw))
    obtain ⟨U2, B2, V2, hfold, hB2, hUV2, hU2, hinv2⟩ :=
      ih U1 B1 V1 hnd1 (List.nodup_cons.1 hzs).2 hmem1 hU1 hinv1
    refine ⟨U2, B2, V2, ?_, ?_, ?_, hU2, hinv2⟩
    · simp only [List.foldl_cons]
      rw [hstep, hfold]
    · refine hB2.trans ((List.Perm.append_right zs hB1).trans ?_)
      exact (@List.perm_middle _ z B zs).symm
    · rw [hUV2, hUV1, erase_filter_not_mem _ z zs hUVnd]

/-- The drop loop at a non-negative row over distinct videos that all stand in
front of the block `ys` already dropped, the block ending at that row or
ending the list before it: each video lands right behind the block, so the
block grows in order of receipt. -/
theorem dropList_forward (a : Nat) (zs : List Video) :
    ∀ (Q ys R : List Video), (Q ++ ys ++ R).Nodup → zs.Nodup → (∀ z ∈ zs, z ∈ Q) →
      Q.length + ys.length ≤ a + 1 → (a + 1 = Q.length + ys.length ∨ R = []) →
      zs.foldl (fun l v => insert (l.erase v) (a : Int) v) (Q ++ ys ++ R) =
        Q.filter (fun x => decide (x ∉ zs)) ++ (ys ++ zs) ++ R := by
  induction zs with
  | nil => intro Q ys R _ _ _ _ _; simp
  | cons z zs ih =>
    intro Q ys R hnd hzs hmem h1 h2
    have hzQ : z ∈ Q := hmem z (List.mem_cons_self z zs)
    have hzzs : z ∉ zs := (List.nodup_cons.1 hzs).1
    have hQnd : Q.Nodup := (List.nodup_append.1 (List.nodup_append.1 hnd).1).1
    have hlen : (Q.erase z).length = Q.length - 1 := List.length_erase_of_mem hzQ
    have hpos : 0 < Q.length := List.length_pos_of_mem hzQ
    have herase : (Q ++ ys ++ R).erase z = Q.erase z ++ ys ++ R := by
      rw [List.erase_append_left _ (List.mem_append_left _ hzQ), List.erase_append_left _ hzQ]
    have hstep : insert ((Q ++ ys ++ R).erase z) (a : Int) z =
        Q.erase z ++ (ys ++ [z]) ++ R := by
      rw [herase]
      have h := insert_into_block (Q.erase z) ys R a ys.length z (Nat.le_refl _)
        (by
          rcases h2 with h | h
          · exact Or.inl (by omega)
          · exact Or.inr ⟨h, rfl, by omega⟩)
      rw [h]
      simp
    have hnd1 : (Q.erase z ++ (ys ++ [z]) ++ R).Nodup := by
      rw [← hstep]
      have hin : z ∈ Q ++ ys ++ R :=
        List.mem_append_left _ (List.mem_append_left _ hzQ)
      exact ((insert_perm _ _ _).trans (List.perm_cons_erase hin).symm).nodup_iff.2 hnd
    have hmem1 : ∀ w ∈ zs, w ∈ Q.erase z := by
      intro w hw
      have hne : w ≠ z := fun hc => hzzs (hc ▸ hw)
      exact (List.mem_erase_of_ne hne).2 (hmem w (List.mem_cons_of_mem z hw))
    simp only [List.foldl_cons]
    rw [hstep, ih (Q.erase z) (ys ++ [z]) R hnd1 (List.nodup_cons.1 hzs).2 hmem1
      (by simp only [List.length_append, List.length_singleton]; omega)
      (by
        rcases h2 with h | h
        · exact Or.inl (by simp only [List.length_append, List.length_singleton]; omega)
        · exact Or.inr h),
      erase_filter_not_mem Q z zs hQnd]
    simp

/-- The drop loop at a non-negative row over distinct videos of a
duplicate-free list: afterwards the dropped videos stand in one block, and the
other videos keep their order around it. -/
theorem dropList_contiguous (a : Nat) (l dropped : List Video) (hnd : l.Nodup)
    (hdist : dropped.Nodup) (hmem : ∀ x ∈ dropped, x ∈ l) :
    ∃ U B V, dropped.foldl (fun l v => insert (l.erase v) (a : Int) v) l = U ++ B ++ V ∧
      List.Perm B dropped ∧ U ++ V = l.filter (fun x => decide (x ∉ dropped)) := by
  cases dropped with
  | nil => exact ⟨l, [], [], by simp, List.Perm.refl _, by simp⟩
  | cons x1 rest =>
    have hx1 : x1 ∈ l := hmem x1 (List.mem_cons_self x1 rest)
    have hx1rest : x1 ∉ rest := (List.nodup_cons.1 hdist).1
    have hstep : insert (l.erase x1) (a : Int) x1 =
        (l.erase x1).take a ++ [x1] ++ (l.erase x1).drop a := by
      rw [insert_nat]
      simp
    have hnd1 : ((l.erase x1).take a ++ [x1] ++ (l.erase x1).drop a).Nodup := by
      rw [← hstep]
      exact ((insert_perm _ _ _).trans (List.perm_cons_erase hx1).symm).nodup_iff.2 hnd
    have hmem1 : ∀ w ∈ rest, w ∈ (l.erase x1).take a ++ (l.erase x1).drop a := by
      intro w hw
      rw [List.take_append_drop]
      have hne : w ≠ x1 := fun hc => hx1rest (hc ▸ hw)
      exact (List.mem_erase_of_ne hne).2 (hmem w (List.mem_cons_of_mem x1 hw))
    have hU : ((l.erase x1).take a).length ≤ a := List.length_take_le a _
    have hinv : a + 1 ≤ ((l.erase x1).take a).length + [x1].length ∨
        (l.erase x1).drop a = [] := by
      by_cases hle : a ≤ (l.erase x1).length
      · left
        rw [List.length_take, Nat.min_eq_left hle]
        simp
      · right
        exact List.drop_of_length_le (by omega)
    obtain ⟨U1, B1, V1, hfold, hB1, hUV1, _, _⟩ :=
      dropList_block a rest _ [x1] _ hnd1 (List.nodup_cons.1 hdist).2 hmem1 hU hinv
    refine ⟨U1, B1, V1, ?_, ?_, ?_⟩
    · simp only [List.foldl_cons]
      rw [hstep, hfold]
    · simpa using hB1
    · rw [hUV1, List.take_append_drop, erase_filter_not_mem l x1 rest hnd]

/-- C14, as stated, fails. Dropping the videos 3, 4 of the list 1, 2, 3, 4 on
row 0 gives 4, 3, 1, 2: row 0 holds the video received last and the two stand
in reverse order of receipt. Dropping the videos 1, 2 on row 2 gives
3, 1, 2, 4: the two start at row 1, not at row 2. -/
theorem dropMimeData_not_in_receipt_order :
    (dropMimeData fourVideos ⟨true, some [3, 4]⟩ .MoveAction 0 0 none).2.videos = [4, 3, 1, 2] ∧
    rowForVideo (dropMimeData fourVideos ⟨true, some [3, 4]⟩ .MoveAction 0 0 none).2 3 ≠ 0 ∧
    (dropMimeData fourVideos ⟨true, some [1, 2]⟩ .MoveAction 2 0 none).2.videos = [3, 1, 2, 4] ∧
    rowForVideo (dropMimeData fourVideos ⟨true, some [1, 2]⟩ .MoveAction 2 0 none).2 1 ≠ 2 :=
  ⟨rfl, by decide, rfl, by decide⟩

/-- C14, amended. The dropped videos land as one block around the target row.
For every duplicate-free list, every target row `atRow` in `[0, size]` and
every accepted drop of distinct videos of the list, afterwards the dropped
videos occupy consecutive rows, the other videos keep their order around
them, and the video received last stands at row `min(atRow, size - 1)`. When
every dropped video stood at a row `< atRow` before the call, the block is in
order of receipt and stands right behind the other videos of the rows
`0 .. atRow`, so that it ends at row `min(atRow, size - 1)`. When every dropped
video stood at a row `>= atRow`, the block is in reverse order of receipt and
starts at row `atRow`, behind the first `atRow` videos of the list. -/
theorem dropMimeData_inserts_at_target (s : PlaylistModel) (data : MimeData)
    (action : DropAction) (column : Int) (parent : Option Int) (atRow : Nat)
    (dropped : List Video)
    (hact : action ≠ .IgnoreAction) (hfmt : data.hasFormat = true) (hcol : column ≤ 0)
    (hvid : data.videos = some dropped)
    (hnd : s.videos.Nodup) (hrow : atRow ≤ s.videos.length) (hdist : dropped.Nodup)
    (hmem : ∀ x ∈ dropped, x ∈ s.videos) :
    (∃ U B V, (dropMimeData s data action (atRow : Int) column parent).2.videos = U ++ B ++ V ∧
      List.Perm B dropped ∧ U ++ V = s.videos.filter (fun x => decide (x ∉ dropped))) ∧
    (∀ (xs : List Video) (xk : Video), dropped = xs ++ [xk] →
      rowForVideo (dropMimeData s data action (atRow : Int) column parent).2 xk =
        ((min atRow (s.videos.length - 1) : Nat) : Int)) ∧
    ((∀ x ∈ dropped, x ∈ s.videos.take atRow) →
      (dropMimeData s data action (atRow : Int) column parent).2.videos =
        (s.videos.take (atRow + 1)).filter (fun x => decide (x ∉ dropped)) ++ dropped ++
          s.videos.drop (atRow + 1)) ∧
    ((∀ x ∈ dropped, x ∈ s.videos.drop atRow) →
      (dropMimeData s data action (atRow : Int) column parent).2.videos =
        s.videos.take atRow ++ dropped.reverse ++
          (s.videos.drop atRow).filter (fun x => decide (x ∉ dropped))) := by
  obtain ⟨b, hb, _, _, hv, _, _⟩ :=
    dropMimeData_accepted s data action (atRow : Int) column parent dropped hact hfmt hcol hvid
  have hb2 : b = (atRow : Int) := hb (by omega)
  subst hb2
  refine ⟨?_, ?_, ?_, ?_⟩
  · rw [hv]
    exact dropList_contiguous atRow s.videos dropped hnd hdist hmem
  · intro xs xk hd
    subst hd
    have hxs : ∀ x ∈ xs, x ∈ s.videos := fun x hx => hmem x (List.mem_append_left _ hx)
    have hperm := dropList_perm (atRow : Int) xs s.videos hxs
    have hxk : xk ∈ xs.foldl (fun l v => insert (l.erase v) (atRow : Int) v) s.videos :=
      hperm.mem_iff.2 (hmem xk (List.mem_append_right _ (List.mem_singleton_self xk)))
    have hnd2 := hperm.nodup_iff.2 hnd
    unfold rowForVideo
    rw [hv, List.foldl_append, List.foldl_cons, List.foldl_nil,
      indexOf_insert_new _ atRow xk hnd2.not_mem_erase, List.length_erase_of_mem hxk,
      hperm.length_eq]
  · intro hfront
    rw [hv]
    have hsplit : s.videos = s.videos.take (atRow + 1) ++ [] ++ s.videos.drop (atRow + 1) := by
      simp
    have hnd2 : (s.videos.take (atRow + 1) ++ [] ++ s.videos.drop (atRow + 1)).Nodup := by
      rw [← hsplit]
      exact hnd
    have hmem2 : ∀ z ∈ dropped, z ∈ s.videos.take (atRow + 1) := by
      intro z hz
      have h := hfront z hz
      have htt : s.videos.take atRow = (s.videos.take (atRow + 1)).take atRow := by
        rw [List.take_take, Nat.min_eq_left (Nat.le_succ atRow)]
      rw [htt] at h
      exact List.mem_of_mem_take h
    have hlen : (s.videos.take (atRow + 1)).length + ([] : List Video).length ≤ atRow + 1 := by
      simp only [List.length_nil, Nat.add_zero]
      exact List.length_take_le _ _
    have hinv : atRow + 1 = (s.videos.take (atRow + 1)).length + ([] : List Video).length ∨
        s.videos.drop (atRow + 1) = [] := by
      by_cases hle : atRow + 1 ≤ s.videos.length
      · left
        rw [List.length_take, Nat.min_eq_left hle]
        simp
      · right
        exact List.drop_of_length_le (by omega)
    have key := dropList_forward atRow dropped (s.videos.take (atRow + 1)) []
      (s.videos.drop (atRow + 1)) hnd2 hdist hmem2 hlen hinv
    rw [← hsplit] at key
    simpa using key
  · intro hbehind
    rw [hv]
    have hlen : (s.videos.take atRow).length = atRow := by
      rw [List.length_take]
      omega
    have hnd2 : (s.videos.take atRow ++ [] ++ s.videos.drop atRow).Nodup := by
      simpa using hnd
    have key := dropList_reverse (s.videos.take atRow) dropped [] (s.videos.drop atRow)
      hnd2 hdist hbehind
    rw [hlen] at key
    simpa using key

/-- C14 amended, at the list 1, 2, 3, 4: the videos 1, 4 dropped on row 2 form
a block with video 4 at row 2; the videos 1, 2 dropped on row 2 give
3, 1, 2, 4; the videos 3, 4 dropped on row 0 give 4, 3, 1, 2. -/
theorem dropMimeData_inserts_at_target_witness :
    ((∃ U B V,
        (dropMimeData fourVideos ⟨true, some [1, 4]⟩ .MoveAction ((2 : Nat) : Int) 0 none).2.videos =
          U ++ B ++ V ∧
        List.Perm B [1, 4] ∧
        U ++ V = fourVideos.videos.filter (fun x => decide (x ∉ [1, 4]))) ∧
      rowForVideo
          (dropMimeData fourVideos ⟨true, some [1, 4]⟩ .MoveAction ((2 : Nat) : Int) 0 none).2 4 =
        ((min 2 (fourVideos.videos.length - 1) : Nat) : Int)) ∧
    (dropMimeData fourVideos ⟨true, some [1, 2]⟩ .MoveAction ((2 : Nat) : Int) 0 none).2.videos =
      [3, 1, 2, 4] ∧
    (dropMimeData fourVideos ⟨true, some [3, 4]⟩ .MoveAction ((0 : Nat) : Int) 0 none).2.videos =
      [4, 3, 1, 2] :=
  ⟨⟨(dropMimeData_inserts_at_target fourVideos ⟨true, some [1, 4]⟩ .MoveAction 0 none 2 [1, 4]
        (by decide) rfl (by decide) rfl (by decide) (by decide) (by decide) (by decide)).1,
     (dropMimeData_inserts_at_target fourVideos ⟨true, some [1, 4]⟩ .MoveAction 0 none 2 [1, 4]
        (by decide) rfl (by decide) rfl (by decide) (by decide) (by decide)
        (by decide)).2.1 [1] 4 rfl⟩,
   (dropMimeData_inserts_at_target fourVideos ⟨true, some [1, 2]⟩ .MoveAction 0 none 2 [1, 2]
      (by decide) rfl (by decide) rfl (by decide) (by decide) (by decide)
      (by decide)).2.2.1 (by decide),
   (dropMimeData_inserts_at_target fourVideos ⟨true, some [3, 4]⟩ .MoveAction 0 none 0 [3, 4]
      (by decide) rfl (by decide) rfl (by decide) (by decide) (by decide)
      (by decide)).2.2.2 (by decide)⟩

end Minitube
